import Mathlib

/-!
# E-Chat transport engine: a shallow embedding with verified properties

This file embeds the message-envelope codec (`src/message_parser.py`), the
validation utilities (`src/utils.py`) and the transport-level helpers of
`src/email_manager.py` (IMAP modified-UTF-7 folder codec, inbox folder
resolution, the send retry loop, and the fetch/deliver path of the inbox
watcher) of the E-Chat repository as executable Lean definitions, and proves
or refutes the specified properties of those components.

Python strings are modelled as Lean `String`/`List Char`, i.e. sequences of
Unicode scalar values (Python strings containing lone surrogates are outside
the model).  Python `bytes` are modelled as `List Nat` with values below 256.
The Python standard-library functions the code calls (`json.dumps` /
`json.loads` with the exact arguments used by the code, `base64.b64encode` /
`b64decode`, the `utf-16be` codec) are modelled by executable Lean
definitions of the corresponding algorithms.
-/

set_option maxHeartbeats 1000000

namespace EChat

/-! ## Python string primitives -/

/-- The set of characters `str.strip()` removes: Python's `str.isspace`
characters (ASCII whitespace, the C1 separators, and the Unicode space
separators). -/
def pyIsSpace (c : Char) : Bool :=
  c == ' ' || c == '\t' || c == '\n' || c == '\r' || c == '\x0b' || c == '\x0c' ||
  (decide ('\x1c' ≤ c) && decide (c ≤ '\x1f')) || c == '\x85' || c == '\xa0' ||
  c == ' ' || (decide (' ' ≤ c) && decide (c ≤ ' ')) ||
  c == ' ' || c == ' ' || c == ' ' || c == ' ' || c == '　'

def stripLeading (l : List Char) : List Char := l.dropWhile pyIsSpace

def stripTrailing (l : List Char) : List Char := (l.reverse.dropWhile pyIsSpace).reverse

/-- Python `str.strip()` with no argument. -/
def pyStrip (s : String) : String := String.mk (stripTrailing (stripLeading s.data))

/-- Python `str.find(ch)`: index of the first occurrence, `none` for `-1`. -/
def findCharIdx (t : Char) : List Char → Option Nat
  | [] => none
  | c :: cs => if c = t then some 0 else (findCharIdx t cs).map (· + 1)

/-- Python `sub in s` for strings: contiguous substring test. -/
def containsSub (needle hay : List Char) : Bool :=
  (List.range (hay.length + 1)).any (fun i => needle.isPrefixOf (hay.drop i))

/-- Python `str.lower()`.  Lean's `Char.toLower` lowers the ASCII range; this
agrees with Python on the ASCII and CJK folder/kind names this code compares. -/
def pyLower (s : String) : String := String.mk (s.data.map Char.toLower)

/-- Python `str.isascii()`. -/
def pyIsAscii (s : String) : Bool := s.data.all (fun c => c.toNat < 128)

/-- Python `str.split(sep)` for a one-character separator. -/
def pySplitChar (t : Char) (l : List Char) : List (List Char) :=
  match l with
  | [] => [[]]
  | c :: cs =>
    let rest := pySplitChar t cs
    if c = t then [] :: rest
    else match rest with
      | [] => [[c]]
      | p :: ps => (c :: p) :: ps

/-- No `{` occurs among these characters. -/
def braceFree (l : List Char) : Bool := l.all (fun c => c != '\x7b')

theorem mem_of_mem_stripLeading {c : Char} {l : List Char} (h : c ∈ l) :
    pyIsSpace c = true ∨ c ∈ stripLeading l := by
  have hsplit := @List.takeWhile_append_dropWhile Char pyIsSpace l
  rw [← hsplit] at h
  rcases List.mem_append.mp h with h1 | h2
  · exact Or.inl (List.mem_takeWhile_imp h1)
  · exact Or.inr h2

theorem mem_of_mem_stripTrailing {c : Char} {l : List Char} (h : c ∈ l) :
    pyIsSpace c = true ∨ c ∈ stripTrailing l := by
  have h' : c ∈ l.reverse := List.mem_reverse.mpr h
  rcases mem_of_mem_stripLeading h' with h1 | h2
  · exact Or.inl h1
  · exact Or.inr (List.mem_reverse.mpr h2)

theorem mem_of_mem_pyStrip {c : Char} {s : String} (h : c ∈ s.data) :
    pyIsSpace c = true ∨ c ∈ (pyStrip s).data := by
  rcases mem_of_mem_stripLeading h with h1 | h2
  · exact Or.inl h1
  · rcases mem_of_mem_stripTrailing h2 with h1 | h3
    · exact Or.inl h1
    · exact Or.inr h3

/-! ## Email validation (`DataValidator.validate_email`)

The source checks the stripped address against the regular expression
`^[a-zA-Z0-9._%+-]+@[a-zA-Z0-9.-]+\.[a-zA-Z]\x7b2,\x7d$`.  Since neither
character class contains `@`, a match splits uniquely at the first `@`;
the part after the last mandatory dot must be at least two letters. -/

def isEmailLocalChar (c : Char) : Bool :=
  c.isAlpha || c.isDigit || c == '.' || c == '_' || c == '%' || c == '+' || c == '-'

def isEmailDomainChar (c : Char) : Bool :=
  c.isAlpha || c.isDigit || c == '.' || c == '-'

def splitAtFirst (t : Char) : List Char → Option (List Char × List Char)
  | [] => none
  | c :: cs =>
    if c = t then some ([], cs)
    else (splitAtFirst t cs).map (fun p => (c :: p.1, p.2))

theorem splitAtFirst_eq {t : Char} : ∀ {cs a b : List Char},
    splitAtFirst t cs = some (a, b) → cs = a ++ t :: b := by
  intro cs
  induction cs with
  | nil => intro a b h; simp [splitAtFirst] at h
  | cons c cs ih =>
    intro a b h
    by_cases hc : c = t
    · simp [splitAtFirst, hc] at h
      rcases h with ⟨rfl, rfl⟩
      subst hc
      simp
    · simp [splitAtFirst, hc] at h
      obtain ⟨p, hpq⟩ := h
      have hcs := ih hpq.1
      rw [← hpq.2]
      rw [hcs]
      simp

/-- Matches `[a-zA-Z0-9.-]+\.[a-zA-Z]\x7b2,\x7d$` against `cs`: some split
position `j` carries the mandatory dot. -/
def domainTailMatch (cs : List Char) : Bool :=
  (List.range cs.length).any (fun j =>
    decide (1 ≤ j) && (cs[j]? == some '.') &&
    (cs.take j).all isEmailDomainChar &&
    (cs.drop (j + 1)).all Char.isAlpha &&
    decide (2 ≤ cs.length - (j + 1)))

def validateEmailCore (cs : List Char) : Bool :=
  match splitAtFirst '@' cs with
  | none => false
  | some (l, rest) => (!l.isEmpty) && l.all isEmailLocalChar && domainTailMatch rest

/-- `DataValidator.validate_email`: empty strings are rejected, otherwise the
stripped address must match the pattern. -/
def validateEmail (s : String) : Bool :=
  if s.data.isEmpty then false else validateEmailCore (pyStrip s).data

theorem domainTailMatch_chars {cs : List Char} (h : domainTailMatch cs = true) :
    ∀ c ∈ cs, isEmailDomainChar c = true ∨ c = '.' ∨ c.isAlpha = true := by
  intro c hc
  unfold domainTailMatch at h
  rcases List.any_eq_true.mp h with ⟨j, _, hj⟩
  simp only [Bool.and_eq_true, decide_eq_true_eq, beq_iff_eq, List.all_eq_true] at hj
  obtain ⟨⟨⟨⟨h1, hdot⟩, htake⟩, hdrop⟩, hlen⟩ := hj
  have hlt : j < cs.length := by
    by_contra hge
    rw [List.getElem?_eq_none (Nat.le_of_not_lt hge)] at hdot
    exact Option.noConfusion hdot
  have hsplit : cs.take j ++ cs.drop j = cs := List.take_append_drop j cs
  have hdropj : cs[j] :: cs.drop (j + 1) = cs.drop j := List.getElem_cons_drop cs j hlt
  rw [← hsplit] at hc
  rcases List.mem_append.mp hc with hmem | hmem
  · exact Or.inl (htake c hmem)
  · rw [← hdropj] at hmem
    rcases List.mem_cons.mp hmem with hmem | hmem
    · have : cs[j] = '.' := by
        have := List.getElem?_eq_getElem hlt
        rw [this] at hdot
        exact Option.some.inj hdot
      exact Or.inr (Or.inl (hmem.trans this))
    · exact Or.inr (Or.inr (hdrop c hmem))

theorem validateEmail_braceFree {s : String} (h : validateEmail s = true) :
    braceFree s.data = true := by
  unfold validateEmail at h
  split at h
  · exact absurd h (by simp)
  · unfold validateEmailCore at h
    rcases hsp : splitAtFirst '@' (pyStrip s).data with _ | ⟨l, rest⟩
    · rw [hsp] at h; exact absurd h (by simp)
    · rw [hsp] at h
      simp only [Bool.and_eq_true, List.all_eq_true] at h
      obtain ⟨⟨_, hlocal⟩, hdom⟩ := h
      have hstrip : (pyStrip s).data = l ++ '@' :: rest := splitAtFirst_eq hsp
      rw [braceFree, List.all_eq_true]
      intro c hc
      rcases mem_of_mem_pyStrip hc with hsp1 | hsp2
      · -- whitespace is never a brace
        revert hsp1
        rcases c with ⟨⟨v⟩, hv⟩
        intro hsp1
        by_contra hbrace
        simp only [bne_iff_ne, ne_eq, Decidable.not_not] at hbrace
        rw [hbrace] at hsp1
        exact absurd hsp1 (by decide)
      · rw [hstrip] at hsp2
        by_contra hbrace
        simp only [bne_iff_ne, ne_eq, Decidable.not_not] at hbrace
        subst hbrace
        rcases List.mem_append.mp hsp2 with hmem | hmem
        · have := hlocal _ hmem
          exact absurd this (by decide)
        · rcases List.mem_cons.mp hmem with hmem | hmem
          · exact absurd hmem (by decide)
          · rcases domainTailMatch_chars hdom _ hmem with h1 | h1 | h1
            · exact absurd h1 (by decide)
            · exact absurd h1 (by decide)
            · exact absurd h1 (by decide)

/-! ## A model of Python JSON values

`json.dumps` / `json.loads` as called by the code (`ensure_ascii=False`,
`indent=2`, default separators, `strict=True`).  JSON numbers with a
fraction or exponent (Python floats) are carried as their raw token
(`JVal.float`); the codec itself never produces them.  Python dicts are
modelled as association lists in insertion order. -/

inductive JVal where
  | null
  | bool (b : Bool)
  | int (n : Int)
  | float (tok : String)
  | str (s : String)
  | arr (elems : List JVal)
  | obj (fields : List (String × JVal))

/-- Python `d[k] = v`: overwrite in place if the key exists, else append. -/
def dictSet (fs : List (String × JVal)) (k : String) (v : JVal) :
    List (String × JVal) :=
  if fs.any (fun f => f.1 == k) then fs.map (fun f => if f.1 == k then (k, v) else f)
  else fs ++ [(k, v)]

/-- Python `k in d`. -/
def hasKey (fs : List (String × JVal)) (k : String) : Bool :=
  fs.any (fun f => f.1 == k)

/-- Python `d[k]` / `d.get(k)`. -/
def dictLookup (fs : List (String × JVal)) (k : String) : Option JVal :=
  (fs.find? (fun f => f.1 == k)).map (·.2)

/-- Python `del d[k]`. -/
def dictErase (fs : List (String × JVal)) (k : String) : List (String × JVal) :=
  fs.filter (fun f => f.1 != k)

/-- Building a Python dict from parsed key/value pairs in order
(later duplicates overwrite, keeping the first position). -/
def pyDictOfPairs (ps : List (String × JVal)) : List (String × JVal) :=
  ps.foldl (fun d p => dictSet d p.1 p.2) []

/-- Field lookup on an object value. -/
def getField (m : JVal) (k : String) : Option JVal :=
  match m with
  | .obj fs => dictLookup fs k
  | _ => none

/-- Field lookup expecting a string value. -/
def getStrField (m : JVal) (k : String) : Option String :=
  match getField m k with
  | some (.str s) => some s
  | _ => none

/-! ### Serialization (`json.dumps(v, ensure_ascii=False, indent=2)`) -/

def jsonSpaces (n : Nat) : List Char := List.replicate n ' '

/-- Lowercase hexadecimal digit for a nibble. -/
def hexDigitL (n : Nat) : Char :=
  if n < 10 then Char.ofNat ('0'.toNat + n) else Char.ofNat ('a'.toNat + (n - 10))

/-- Decimal digits of a natural number, most significant first (Python `repr`). -/
def natToDigits (n : Nat) : List Char :=
  if h : n < 10 then [Char.ofNat ('0'.toNat + n)]
  else natToDigits (n / 10) ++ [Char.ofNat ('0'.toNat + n % 10)]
  decreasing_by exact Nat.div_lt_self (by omega) (by omega)

/-- Python `repr` of an int, as emitted by `json.dumps`. -/
def serInt (n : Int) : List Char :=
  if n < 0 then '-' :: natToDigits n.natAbs else natToDigits n.toNat

/-- `json.dumps` escaping of one character with `ensure_ascii=False`:
only `"`, `\` and control characters below `0x20` are escaped. -/
def escChar (c : Char) : List Char :=
  if c = '"' then ['\\', '"']
  else if c = '\\' then ['\\', '\\']
  else if c = '\n' then ['\\', 'n']
  else if c = '\r' then ['\\', 'r']
  else if c = '\t' then ['\\', 't']
  else if c = '\x08' then ['\\', 'b']
  else if c = '\x0c' then ['\\', 'f']
  else if c.toNat < 0x20 then
    ['\\', 'u', '0', '0', hexDigitL (c.toNat / 16), hexDigitL (c.toNat % 16)]
  else [c]

def serStrBody : List Char → List Char
  | [] => []
  | c :: cs => escChar c ++ serStrBody cs

def serStr (s : String) : List Char := '"' :: serStrBody s.data ++ ['"']

mutual

/-- `json.dumps(v, ensure_ascii=False, indent=2)` at nesting indent `ind`. -/
def serVal (ind : Nat) : JVal → List Char
  | .null => "null".data
  | .bool true => "true".data
  | .bool false => "false".data
  | .int n => serInt n
  | .float tok => tok.data
  | .str s => serStr s
  | .arr [] => ['[', ']']
  | .arr (v :: vs) =>
    '[' :: '\n' :: jsonSpaces (ind + 2) ++ serArrItems (ind + 2) v vs ++
      '\n' :: jsonSpaces ind ++ [']']
  | .obj [] => ['\x7b', '\x7d']
  | .obj (f :: fs) =>
    '\x7b' :: '\n' :: jsonSpaces (ind + 2) ++ serObjItems (ind + 2) f fs ++
      '\n' :: jsonSpaces ind ++ ['\x7d']
termination_by v => sizeOf v

def serArrItems (ind : Nat) : JVal → List JVal → List Char
  | v, [] => serVal ind v
  | v, w :: vs => serVal ind v ++ ',' :: '\n' :: jsonSpaces ind ++ serArrItems ind w vs
termination_by v vs => 1 + sizeOf v + sizeOf vs

def serObjItems (ind : Nat) : (String × JVal) → List (String × JVal) → List Char
  | (k, v), [] => serStr k ++ ':' :: ' ' :: serVal ind v
  | (k, v), f :: fs =>
    serStr k ++ ':' :: ' ' :: serVal ind v ++ ',' :: '\n' :: jsonSpaces ind ++
      serObjItems ind f fs
termination_by f fs => 1 + sizeOf f + sizeOf fs

end

/-- `json.dumps(v, ensure_ascii=False, indent=2)`. -/
def jsonDumps (v : JVal) : String := String.mk (serVal 0 v)

/-! ### Parsing (`json.loads`) -/

def isJsonWs (c : Char) : Bool := c == ' ' || c == '\t' || c == '\n' || c == '\r'

def skipWs (l : List Char) : List Char := l.dropWhile isJsonWs

def hexVal (c : Char) : Option Nat :=
  if '0' ≤ c ∧ c ≤ '9' then some (c.toNat - '0'.toNat)
  else if 'a' ≤ c ∧ c ≤ 'f' then some (c.toNat - 'a'.toNat + 10)
  else if 'A' ≤ c ∧ c ≤ 'F' then some (c.toNat - 'A'.toNat + 10)
  else none

/-- A decoded `\uXXXX` code unit as a character.  Python strings may carry
lone surrogates; those are not Unicode scalar values, so the model maps them
to U+FFFD (codec-produced documents never contain them). -/
def codeToChar (n : Nat) : Char :=
  if 0xD800 ≤ n ∧ n < 0xE000 then '�' else Char.ofNat n

def hex4 (h1 h2 h3 h4 : Char) : Option Nat :=
  match hexVal h1, hexVal h2, hexVal h3, hexVal h4 with
  | some a, some b, some c, some d => some (a * 4096 + b * 256 + c * 16 + d)
  | _, _, _, _ => none

mutual

/-- The body of a JSON string after the opening quote (`strict=True`:
raw control characters are rejected; surrogate `\u` pairs combine). -/
def parseStrBody : List Char → Option (List Char × List Char)
  | [] => none
  | c :: rest =>
    if c = '"' then some ([], rest)
    else if c = '\\' then parseEsc rest
    else if c.toNat < 0x20 then none
    else (parseStrBody rest).map (fun p => (c :: p.1, p.2))
termination_by l => (l.length, 0)

/-- One escape sequence after a backslash, then the rest of the string body. -/
def parseEsc : List Char → Option (List Char × List Char)
  | [] => none
  | e :: rest2 =>
    if e = '"' then (parseStrBody rest2).map (fun p => ('"' :: p.1, p.2))
    else if e = '\\' then (parseStrBody rest2).map (fun p => ('\\' :: p.1, p.2))
    else if e = '/' then (parseStrBody rest2).map (fun p => ('/' :: p.1, p.2))
    else if e = 'b' then (parseStrBody rest2).map (fun p => ('\x08' :: p.1, p.2))
    else if e = 'f' then (parseStrBody rest2).map (fun p => ('\x0c' :: p.1, p.2))
    else if e = 'n' then (parseStrBody rest2).map (fun p => ('\n' :: p.1, p.2))
    else if e = 'r' then (parseStrBody rest2).map (fun p => ('\r' :: p.1, p.2))
    else if e = 't' then (parseStrBody rest2).map (fun p => ('\t' :: p.1, p.2))
    else if e = 'u' then parseEscU rest2
    else none
termination_by l => (l.length, 1)

/-- The four hex digits of a `\uXXXX` escape. -/
def parseEscU : List Char → Option (List Char × List Char)
  | h1 :: h2 :: h3 :: h4 :: rest3 =>
    match hex4 h1 h2 h3 h4 with
    | none => none
    | some n =>
      if 0xD800 ≤ n ∧ n < 0xDC00 then parseHighSur n rest3
      else (parseStrBody rest3).map (fun p => (codeToChar n :: p.1, p.2))
  | _ => none
termination_by l => (l.length, 2)

/-- After a `\uXXXX` high surrogate: pair it with an immediately following
`\uXXXX` low surrogate, else decode it alone. -/
def parseHighSur (n : Nat) : List Char → Option (List Char × List Char)
  | '\\' :: 'u' :: g1 :: g2 :: g3 :: g4 :: rest4 =>
    match hex4 g1 g2 g3 g4 with
    | some m =>
      if 0xDC00 ≤ m ∧ m < 0xE000 then
        (parseStrBody rest4).map (fun p =>
          (Char.ofNat (0x10000 + (n - 0xD800) * 0x400 + (m - 0xDC00)) :: p.1, p.2))
      else
        (parseStrBody ('\\' :: 'u' :: g1 :: g2 :: g3 :: g4 :: rest4)).map
          (fun p => (codeToChar n :: p.1, p.2))
    | none =>
      (parseStrBody ('\\' :: 'u' :: g1 :: g2 :: g3 :: g4 :: rest4)).map
        (fun p => (codeToChar n :: p.1, p.2))
  | other => (parseStrBody other).map (fun p => (codeToChar n :: p.1, p.2))
termination_by l => (l.length + 1, 0)

end

def digitsToNat (ds : List Char) : Nat :=
  ds.foldl (fun acc c => acc * 10 + (c.toNat - '0'.toNat)) 0

/-- Leading `-?` of a number token. -/
def numNegPart (l : List Char) : Bool × List Char :=
  match l with
  | c :: r => if c = '-' then (true, r) else (false, l)
  | [] => (false, l)

/-- The `(\.\d+)?` group: consumed fraction characters and the rest. -/
def numFracPart (r1 : List Char) : List Char × List Char :=
  match r1 with
  | c1 :: rest =>
    if c1 = '.' then
      match rest with
      | d :: _ =>
        if d.isDigit then ('.' :: rest.takeWhile Char.isDigit, rest.dropWhile Char.isDigit)
        else ([], r1)
      | [] => ([], r1)
    else ([], r1)
  | [] => ([], r1)

/-- The `([eE][-+]?\d+)?` group: consumed exponent characters and the rest. -/
def numExpPart (r2 : List Char) : List Char × List Char :=
  match r2 with
  | e :: rest =>
    if e = 'e' ∨ e = 'E' then
      let (sgn, rest2) : List Char × List Char :=
        match rest with
        | s :: rr => if s = '+' ∨ s = '-' then ([s], rr) else ([], rest)
        | [] => ([], rest)
      match rest2.takeWhile Char.isDigit with
      | [] => ([], r2)
      | ds2 :: ds3 => (e :: sgn ++ ds2 :: ds3, rest2.dropWhile Char.isDigit)
    else ([], r2)
  | [] => ([], r2)

/-- JSON number token, per Python's `NUMBER_RE`
`(-?(?:0|[1-9]\d*))(\.\d+)?([eE][-+]?\d+)?` (the model accepts leading
zeros; the serializer never emits them).  Integer tokens become `.int`,
tokens with fraction or exponent become `.float`. -/
def parseNum (l : List Char) : Option (JVal × List Char) :=
  let np := numNegPart l
  match np.2.takeWhile Char.isDigit with
  | [] => none
  | ds0 :: ds1 =>
    let ds := ds0 :: ds1
    let r1 := np.2.dropWhile Char.isDigit
    let fp := numFracPart r1
    let ep := numExpPart fp.2
    if fp.1.isEmpty && ep.1.isEmpty then
      some (.int (if np.1 then -(digitsToNat ds : Int) else (digitsToNat ds : Int)), r1)
    else
      some (.float (String.mk ((if np.1 then ['-'] else []) ++ ds ++ fp.1 ++ ep.1)), ep.2)

/-- Literal-keyword tail check (`ull` after `n`, and so on). -/
def expectChars (pat l : List Char) : Option (List Char) :=
  if pat.isPrefixOf l then some (l.drop pat.length) else none

mutual

/-- One JSON value, fuel-bounded (the fuel only limits nesting and element
count; `jsonLoads` supplies enough for its input). -/
def parseVal : Nat → List Char → Option (JVal × List Char)
  | 0, _ => none
  | fuel + 1, l =>
    match skipWs l with
    | [] => none
    | c :: r =>
      if c = '"' then (parseStrBody r).map (fun p => (.str (String.mk p.1), p.2))
      else if c = '[' then
        match skipWs r with
        | [] => none
        | c1 :: r2 =>
          if c1 = ']' then some (.arr [], r2)
          else (parseElems fuel (c1 :: r2)).map (fun p => (.arr p.1, p.2))
      else if c = '\x7b' then
        match skipWs r with
        | [] => none
        | c1 :: r2 =>
          if c1 = '\x7d' then some (.obj [], r2)
          else (parseFields fuel (c1 :: r2)).map
            (fun p => (.obj (pyDictOfPairs p.1), p.2))
      else if c = 'n' then (expectChars ['u', 'l', 'l'] r).map (fun r2 => (.null, r2))
      else if c = 't' then (expectChars ['r', 'u', 'e'] r).map (fun r2 => (.bool true, r2))
      else if c = 'f' then
        (expectChars ['a', 'l', 's', 'e'] r).map (fun r2 => (.bool false, r2))
      else parseNum (c :: r)

def parseElems : Nat → List Char → Option (List JVal × List Char)
  | 0, _ => none
  | fuel + 1, l =>
    match parseVal fuel l with
    | none => none
    | some (v, r) =>
      match skipWs r with
      | [] => none
      | c :: r2 =>
        if c = ',' then
          match parseElems fuel r2 with
          | some (vs, r3) => some (v :: vs, r3)
          | none => none
        else if c = ']' then some ([v], r2)
        else none

def parseFields : Nat → List Char → Option (List (String × JVal) × List Char)
  | 0, _ => none
  | fuel + 1, l =>
    match skipWs l with
    | [] => none
    | c :: r =>
      if c = '"' then
        match parseStrBody r with
        | none => none
        | some (k, r1) =>
          match skipWs r1 with
          | [] => none
          | c1 :: r2 =>
            if c1 = ':' then
              match parseVal fuel r2 with
              | none => none
              | some (v, r3) =>
                match skipWs r3 with
                | [] => none
                | c2 :: r4 =>
                  if c2 = ',' then
                    match parseFields fuel r4 with
                    | some (fs, r5) => some ((String.mk k, v) :: fs, r5)
                    | none => none
                  else if c2 = '\x7d' then some ([(String.mk k, v)], r4)
                  else none
            else none
      else none

end

/-- `json.loads(s)`: one JSON document with only whitespace around it. -/
def jsonLoads (s : String) : Option JVal :=
  match parseVal (s.data.length + 1) s.data with
  | some (v, rest) => if (skipWs rest).isEmpty then some v else none
  | none => none

/-! ### Round trip: `jsonLoads (jsonDumps v) = some v`

This holds for the values `json.dumps` emits faithfully in this model:
no raw float tokens and no duplicate keys inside one object (`canon`).
All documents the codec serializes are canonical. -/

mutual

def canon : JVal → Bool
  | .null => true
  | .bool _ => true
  | .int _ => true
  | .float _ => false
  | .str _ => true
  | .arr es => canonElems es
  | .obj fs => canonFields fs
termination_by v => sizeOf v

def canonElems : List JVal → Bool
  | [] => true
  | v :: vs => canon v && canonElems vs
termination_by vs => sizeOf vs

def canonFields : List (String × JVal) → Bool
  | [] => true
  | (k, v) :: fs => !(hasKey fs k) && canon v && canonFields fs
termination_by fs => sizeOf fs

end

mutual

/-- A fuel bound sufficient for `parseVal` to reconstruct `v`. -/
def jsize : JVal → Nat
  | .null => 1
  | .bool _ => 1
  | .int _ => 1
  | .float _ => 1
  | .str _ => 1
  | .arr es => 1 + jsizeElems es
  | .obj fs => 1 + jsizeFields fs
termination_by v => sizeOf v

def jsizeElems : List JVal → Nat
  | [] => 0
  | v :: vs => 1 + jsize v + jsizeElems vs
termination_by vs => sizeOf vs

def jsizeFields : List (String × JVal) → Nat
  | [] => 0
  | (_, v) :: fs => 1 + jsize v + jsizeFields fs
termination_by fs => sizeOf fs

end

theorem jsize_pos (v : JVal) : 1 ≤ jsize v := by
  cases v <;> simp [jsize]

theorem skipWs_cons (c : Char) (l : List Char) :
    skipWs (c :: l) = if isJsonWs c then skipWs l else c :: l := by
  simp [skipWs, List.dropWhile_cons]

theorem skipWs_spaces (n : Nat) (l : List Char) :
    skipWs (jsonSpaces n ++ l) = skipWs l := by
  induction n with
  | zero => simp [jsonSpaces]
  | succ m ih =>
    simp only [jsonSpaces, List.replicate_succ, List.cons_append, skipWs_cons]
    rw [if_pos (by decide)]
    exact ih

theorem skipWs_nlsp (n : Nat) (l : List Char) :
    skipWs ('\n' :: (jsonSpaces n ++ l)) = skipWs l := by
  rw [skipWs_cons, if_pos (by decide), skipWs_spaces]

theorem skipWs_not_ws {c : Char} (h : isJsonWs c = false) (l : List Char) :
    skipWs (c :: l) = c :: l := by
  rw [skipWs_cons, if_neg (by simp [h])]

theorem parseVal_eq_of_skipWs {l1 : List Char} (l2 : List Char) (h : skipWs l1 = skipWs l2) :
    ∀ fuel, parseVal fuel l1 = parseVal fuel l2 := by
  intro fuel
  cases fuel with
  | zero => rfl
  | succ f => simp only [parseVal, h]

theorem parseElems_eq_of_skipWs {l1 : List Char} (l2 : List Char) (h : skipWs l1 = skipWs l2) :
    ∀ fuel, parseElems fuel l1 = parseElems fuel l2 := by
  intro fuel
  cases fuel with
  | zero => rfl
  | succ f => simp only [parseElems, parseVal_eq_of_skipWs _ h]

theorem parseFields_eq_of_skipWs {l1 : List Char} (l2 : List Char) (h : skipWs l1 = skipWs l2) :
    ∀ fuel, parseFields fuel l1 = parseFields fuel l2 := by
  intro fuel
  cases fuel with
  | zero => rfl
  | succ f => simp only [parseFields, h]

/-! ### Decimal digits -/

def decDigits : List Char := ['0', '1', '2', '3', '4', '5', '6', '7', '8', '9']

theorem natToDigits_shape (n : Nat) :
    ∃ d ds, natToDigits n = d :: ds ∧ d ∈ decDigits := by
  induction n using Nat.strong_induction_on with
  | _ n ih =>
    rw [natToDigits]
    by_cases h : n < 10
    · rw [dif_pos h]
      refine ⟨_, [], rfl, ?_⟩
      interval_cases n <;> decide
    · rw [dif_neg h]
      obtain ⟨d, ds, hds, hd⟩ := ih (n / 10) (Nat.div_lt_self (by omega) (by omega))
      exact ⟨d, ds ++ [Char.ofNat ('0'.toNat + n % 10)], by rw [hds]; simp, hd⟩

theorem natToDigits_all_digits (n : Nat) :
    ∀ c ∈ natToDigits n, c.isDigit = true := by
  induction n using Nat.strong_induction_on with
  | _ n ih =>
    rw [natToDigits]
    by_cases h : n < 10
    · rw [dif_pos h]
      intro c hc
      simp only [List.mem_singleton] at hc
      subst hc
      interval_cases n <;> decide
    · rw [dif_neg h]
      intro c hc
      rcases List.mem_append.mp hc with hc | hc
      · exact ih (n / 10) (Nat.div_lt_self (by omega) (by omega)) c hc
      · simp only [List.mem_singleton] at hc
        subst hc
        have hm : n % 10 < 10 := Nat.mod_lt _ (by omega)
        have : ∀ m < 10, (Char.ofNat ('0'.toNat + m)).isDigit = true := by decide
        exact this _ hm

theorem digitsToNat_natToDigits (n : Nat) : digitsToNat (natToDigits n) = n := by
  induction n using Nat.strong_induction_on with
  | _ n ih =>
    rw [natToDigits]
    by_cases h : n < 10
    · rw [dif_pos h]
      simp only [digitsToNat, List.foldl_cons, List.foldl_nil]
      have : ∀ m < 10, (Char.ofNat ('0'.toNat + m)).toNat = '0'.toNat + m := by decide
      rw [this n h]
      omega
    · rw [dif_neg h]
      have hrec := ih (n / 10) (Nat.div_lt_self (by omega) (by omega))
      have hm : n % 10 < 10 := Nat.mod_lt _ (by omega)
      have htn : ∀ m < 10, (Char.ofNat ('0'.toNat + m)).toNat = '0'.toNat + m := by decide
      simp only [digitsToNat, List.foldl_append, List.foldl_cons, List.foldl_nil]
      simp only [digitsToNat] at hrec
      rw [hrec, htn _ hm]
      omega

theorem takeWhile_digits_append {ds r : List Char}
    (hds : ∀ c ∈ ds, c.isDigit = true)
    (hr : match r with | [] => True | c :: _ => c.isDigit = false) :
    (ds ++ r).takeWhile Char.isDigit = ds ∧ (ds ++ r).dropWhile Char.isDigit = r := by
  induction ds with
  | nil =>
    simp only [List.nil_append]
    cases r with
    | nil => simp
    | cons c r' =>
      simp only at hr
      simp [List.takeWhile_cons, List.dropWhile_cons, hr]
  | cons d ds' ih =>
    have hd : d.isDigit = true := hds d (by simp)
    have ih' := ih (fun c hc => hds c (by simp [hc]))
    simp [List.takeWhile_cons, List.dropWhile_cons, hd, ih'.1, ih'.2]

/-! ### Heads of serialized values -/

theorem serStr_shape (s : String) :
    serStr s = '"' :: (serStrBody s.data ++ ['"']) := by
  simp [serStr]

theorem serInt_shape (n : Int) :
    ∃ c cs, serInt n = c :: cs ∧ (c = '-' ∨ c ∈ decDigits) := by
  unfold serInt
  by_cases h : n < 0
  · exact ⟨'-', natToDigits n.natAbs, by rw [if_pos h], Or.inl rfl⟩
  · obtain ⟨d, ds, hds, hd⟩ := natToDigits_shape n.toNat
    exact ⟨d, ds, by rw [if_neg h, hds], Or.inr hd⟩

/-- A canonical serialized value is nonempty and starts with a
non-whitespace character different from `]`. -/
theorem serVal_cons (ind : Nat) (v : JVal) (hc : canon v = true) :
    ∃ c cs, serVal ind v = c :: cs ∧ isJsonWs c = false ∧ c ≠ ']' := by
  cases v with
  | null =>
    rw [show serVal ind .null = ['n', 'u', 'l', 'l'] from by simp [serVal]]
    exact ⟨_, _, rfl, by decide, by decide⟩
  | bool b =>
    cases b with
    | true =>
      rw [show serVal ind (.bool true) = ['t', 'r', 'u', 'e'] from by simp [serVal]]
      exact ⟨_, _, rfl, by decide, by decide⟩
    | false =>
      rw [show serVal ind (.bool false) = ['f', 'a', 'l', 's', 'e'] from by simp [serVal]]
      exact ⟨_, _, rfl, by decide, by decide⟩
  | int n =>
    obtain ⟨c, cs, hcs, hd⟩ := serInt_shape n
    rw [show serVal ind (.int n) = serInt n from by simp [serVal], hcs]
    refine ⟨c, cs, rfl, ?_, ?_⟩
    · rcases hd with rfl | hd
      · decide
      · fin_cases hd <;> decide
    · rcases hd with rfl | hd
      · decide
      · fin_cases hd <;> decide
  | float tok => simp [canon] at hc
  | str s =>
    rw [show serVal ind (.str s) = serStr s from by simp [serVal], serStr_shape]
    exact ⟨_, _, rfl, by decide, by decide⟩
  | arr es =>
    cases es with
    | nil =>
      rw [show serVal ind (.arr []) = ['[', ']'] from by simp [serVal]]
      exact ⟨_, _, rfl, by decide, by decide⟩
    | cons v vs =>
      rw [show serVal ind (.arr (v :: vs)) =
        '[' :: ('\n' :: (jsonSpaces (ind + 2) ++ serArrItems (ind + 2) v vs ++
          '\n' :: jsonSpaces ind ++ [']'])) from by simp [serVal]]
      exact ⟨_, _, rfl, by decide, by decide⟩
  | obj fs =>
    cases fs with
    | nil =>
      rw [show serVal ind (.obj []) = ['\x7b', '\x7d'] from by simp [serVal]]
      exact ⟨_, _, rfl, by decide, by decide⟩
    | cons f fs =>
      rw [show serVal ind (.obj (f :: fs)) =
        '\x7b' :: ('\n' :: (jsonSpaces (ind + 2) ++ serObjItems (ind + 2) f fs ++
          '\n' :: jsonSpaces ind ++ ['\x7d'])) from by simp [serVal]]
      exact ⟨_, _, rfl, by decide, by decide⟩

theorem serArrItems_cons (ind : Nat) (v : JVal) (vs : List JVal) (hc : canon v = true) :
    ∃ c cs, serArrItems ind v vs = c :: cs ∧ isJsonWs c = false ∧ c ≠ ']' := by
  obtain ⟨c, cs, hcs, h1, h2⟩ := serVal_cons ind v hc
  cases vs with
  | nil =>
    rw [show serArrItems ind v [] = serVal ind v from by simp [serArrItems], hcs]
    exact ⟨c, cs, rfl, h1, h2⟩
  | cons w ws =>
    rw [show serArrItems ind v (w :: ws) = serVal ind v ++
      ',' :: '\n' :: jsonSpaces ind ++ serArrItems ind w ws from by simp [serArrItems],
      hcs]
    exact ⟨c, _, rfl, h1, h2⟩

theorem serObjItems_cons (ind : Nat) (f : String × JVal) (fs : List (String × JVal)) :
    ∃ cs, serObjItems ind f fs = '"' :: cs := by
  obtain ⟨k, v⟩ := f
  cases fs with
  | nil =>
    rw [show serObjItems ind (k, v) [] = serStr k ++ ':' :: ' ' :: serVal ind v from by
      simp [serObjItems], serStr_shape]
    exact ⟨_, rfl⟩
  | cons g gs =>
    rw [show serObjItems ind (k, v) (g :: gs) = serStr k ++ ':' :: ' ' :: serVal ind v ++
      ',' :: '\n' :: jsonSpaces ind ++ serObjItems ind g gs from by simp [serObjItems],
      serStr_shape]
    exact ⟨_, rfl⟩

/-! ### String-body round trip -/

theorem hexVal_hexDigitL : ∀ m < 16, hexVal (hexDigitL m) = some m := by decide

theorem parseStrBody_bs (R : List Char) : parseStrBody ('\\' :: R) = parseEsc R := by
  simp [parseStrBody]

theorem parseEsc_u (R : List Char) : parseEsc ('u' :: R) = parseEscU R := by
  simp [parseEsc]

theorem parseEscU_ctrl (t : Nat) (ht : t < 32) (R : List Char) :
    parseEscU ('0' :: '0' :: hexDigitL (t / 16) :: hexDigitL (t % 16) :: R) =
      (parseStrBody R).map (fun p => (codeToChar t :: p.1, p.2)) := by
  have hdiv : t / 16 < 16 := by omega
  have hmod : t % 16 < 16 := by omega
  simp only [parseEscU, hex4, hexVal_hexDigitL _ hdiv, hexVal_hexDigitL _ hmod,
    show hexVal '0' = some 0 from by decide]
  rw [show (0 : Nat) * 4096 + 0 * 256 + t / 16 * 16 + t % 16 = t from by omega]
  rw [if_neg (by omega)]

theorem parseStrBody_ser (l : List Char) (r : List Char) :
    parseStrBody (serStrBody l ++ ('"' :: r)) = some (l, r) := by
  induction l with
  | nil =>
    show parseStrBody ('"' :: r) = some ([], r)
    simp [parseStrBody]
  | cons c cs ih =>
    show parseStrBody ((escChar c ++ serStrBody cs) ++ ('"' :: r)) = _
    rw [List.append_assoc]
    unfold escChar
    by_cases h1 : c = '"'
    · rw [if_pos h1]
      subst h1
      simp [parseStrBody, parseEsc, ih]
    rw [if_neg h1]
    by_cases h2 : c = '\\'
    · rw [if_pos h2]
      subst h2
      simp [parseStrBody, parseEsc, ih]
    rw [if_neg h2]
    by_cases h3 : c = '\n'
    · rw [if_pos h3]
      subst h3
      simp [parseStrBody, parseEsc, ih]
    rw [if_neg h3]
    by_cases h4 : c = '\r'
    · rw [if_pos h4]
      subst h4
      simp [parseStrBody, parseEsc, ih]
    rw [if_neg h4]
    by_cases h5 : c = '\t'
    · rw [if_pos h5]
      subst h5
      simp [parseStrBody, parseEsc, ih]
    rw [if_neg h5]
    by_cases h6 : c = '\x08'
    · rw [if_pos h6]
      subst h6
      simp [parseStrBody, parseEsc, ih]
    rw [if_neg h6]
    by_cases h7 : c = '\x0c'
    · rw [if_pos h7]
      subst h7
      simp [parseStrBody, parseEsc, ih]
    rw [if_neg h7]
    by_cases h8 : c.toNat < 0x20
    · rw [if_pos h8]
      simp only [List.cons_append, List.nil_append]
      rw [parseStrBody_bs, parseEsc_u, parseEscU_ctrl _ h8, ih]
      have hch : codeToChar c.toNat = c := by
        unfold codeToChar
        rw [if_neg (by omega)]
        exact Char.ofNat_toNat c
      simp [hch]
    · rw [if_neg h8]
      simp only [List.cons_append, List.nil_append, parseStrBody]
      rw [if_neg h1, if_neg h2, if_neg h8, ih]
      rfl

/-! ### Rebuilding a dict from distinct-key pairs is the identity -/

theorem stringMk_data (s : String) : String.mk s.data = s := by
  cases s
  rfl

theorem dictSet_append {d : List (String × JVal)} {k : String} {v : JVal}
    (h : hasKey d k = false) : dictSet d k v = d ++ [(k, v)] := by
  unfold dictSet
  unfold hasKey at h
  rw [if_neg (by rw [h]; exact Bool.false_ne_true)]

theorem pyDictOfPairs_aux {fs : List (String × JVal)} (hc : canonFields fs = true) :
    ∀ acc, (∀ p ∈ fs, hasKey acc p.1 = false) →
      fs.foldl (fun d p => dictSet d p.1 p.2) acc = acc ++ fs := by
  induction fs with
  | nil => intro acc _; simp
  | cons f fs' ih =>
    intro acc hdisj
    obtain ⟨k, v⟩ := f
    rw [show canonFields ((k, v) :: fs') = (!(hasKey fs' k) && canon v && canonFields fs')
      from by simp [canonFields]] at hc
    simp only [Bool.and_eq_true, Bool.not_eq_true'] at hc
    obtain ⟨⟨hk, hv⟩, hfs⟩ := hc
    simp only [List.foldl_cons]
    rw [dictSet_append (hdisj (k, v) (by simp))]
    rw [ih hfs]
    · simp
    · intro p hp
      unfold hasKey
      rw [List.any_append]
      have h1 : acc.any (fun f => f.1 == p.1) = false := hdisj p (by simp [hp])
      have h2 : (p.1 == k) = false := by
        unfold hasKey at hk
        have := List.any_eq_false.mp hk p hp
        simpa using this
      have h2' : (k == p.1) = false := by
        rcases beq_eq_false_iff_ne.mp h2 with hne
        exact beq_eq_false_iff_ne.mpr (fun he => hne he.symm)
      simp [h1, h2']

theorem pyDictOfPairs_eq {fs : List (String × JVal)} (hc : canonFields fs = true) :
    pyDictOfPairs fs = fs := by
  unfold pyDictOfPairs
  rw [pyDictOfPairs_aux hc [] (by intro p _; rfl)]
  simp

end EChat

namespace EChat

/-! ### Integer round trip -/

/-- What may legally follow a serialized value so that the number scanner
stops exactly at the value boundary (the serializer only ever emits `,`,
a newline, `]`, `\x7d` or end of input there). -/
def numOkAfter : List Char → Prop
  | [] => True
  | c :: _ => c.isDigit = false ∧ c ≠ '.' ∧ c ≠ 'e' ∧ c ≠ 'E'

theorem numFracPart_none {r : List Char} (hr : numOkAfter r) :
    numFracPart r = ([], r) := by
  cases r with
  | nil => rfl
  | cons c r' =>
    simp only [numFracPart]
    rw [if_neg hr.2.1]

theorem numExpPart_none {r : List Char} (hr : numOkAfter r) :
    numExpPart r = ([], r) := by
  cases r with
  | nil => rfl
  | cons c r' =>
    simp only [numExpPart]
    rw [if_neg (by push_neg; exact ⟨hr.2.2.1, hr.2.2.2⟩)]

theorem parseNum_serInt (n : Int) (r : List Char) (hr : numOkAfter r) :
    parseNum (serInt n ++ r) = some (.int n, r) := by
  have hfr := numFracPart_none hr
  have hex := numExpPart_none hr
  have hdig : ∀ m : Nat,
      (natToDigits m ++ r).takeWhile Char.isDigit = natToDigits m ∧
      (natToDigits m ++ r).dropWhile Char.isDigit = r := by
    intro m
    exact takeWhile_digits_append (natToDigits_all_digits _) (by
      cases r with
      | nil => trivial
      | cons c r' => exact hr.1)
  unfold serInt
  by_cases hn : n < 0
  · rw [if_pos hn]
    have hneg : numNegPart ('-' :: natToDigits n.natAbs ++ r) =
        (true, natToDigits n.natAbs ++ r) := by
      simp [numNegPart]
    obtain ⟨d, ds, hds, hd⟩ := natToDigits_shape n.natAbs
    simp only [List.cons_append] at hneg ⊢
    simp only [parseNum]
    rw [hneg]
    have htk2 : List.takeWhile Char.isDigit (natToDigits n.natAbs ++ r) = d :: ds := by
      rw [(hdig n.natAbs).1, hds]
    have hdp2 : List.dropWhile Char.isDigit (natToDigits n.natAbs ++ r) = r :=
      (hdig n.natAbs).2
    rw [htk2, hdp2, hfr, hex]
    simp only [List.isEmpty_nil, Bool.and_self, if_true]
    rw [← hds, digitsToNat_natToDigits]
    rw [show (-(n.natAbs : Int)) = n from by omega]
  · rw [if_neg hn]
    obtain ⟨d, ds, hds, hd⟩ := natToDigits_shape n.toNat
    have hneg : numNegPart (natToDigits n.toNat ++ r) =
        (false, natToDigits n.toNat ++ r) := by
      rw [hds]
      simp only [List.cons_append, numNegPart]
      rw [if_neg (by fin_cases hd <;> decide)]
    simp only [parseNum]
    rw [hneg]
    have htk2 : List.takeWhile Char.isDigit (natToDigits n.toNat ++ r) = d :: ds := by
      rw [(hdig n.toNat).1, hds]
    have hdp2 : List.dropWhile Char.isDigit (natToDigits n.toNat ++ r) = r :=
      (hdig n.toNat).2
    rw [htk2, hdp2, hfr, hex]
    simp only [List.isEmpty_nil, Bool.and_self, if_true]
    rw [← hds, digitsToNat_natToDigits]
    rw [show ((n.toNat : Int)) = n from by omega]
    rw [if_neg (by decide)]


/-! ### Equation and unfolding helpers for the round-trip proof -/

theorem serVal_null (ind : Nat) : serVal ind .null = ['n', 'u', 'l', 'l'] := by
  simp [serVal]

theorem serVal_true (ind : Nat) : serVal ind (.bool true) = ['t', 'r', 'u', 'e'] := by
  simp [serVal]

theorem serVal_false (ind : Nat) :
    serVal ind (.bool false) = ['f', 'a', 'l', 's', 'e'] := by
  simp [serVal]

theorem serVal_int (ind : Nat) (n : Int) : serVal ind (.int n) = serInt n := by
  simp [serVal]

theorem serVal_str (ind : Nat) (s : String) : serVal ind (.str s) = serStr s := by
  simp [serVal]

theorem serVal_arrNil (ind : Nat) : serVal ind (.arr []) = ['[', ']'] := by
  simp [serVal]

theorem serVal_arrCons (ind : Nat) (v : JVal) (vs : List JVal) :
    serVal ind (.arr (v :: vs)) =
      '[' :: '\n' :: (jsonSpaces (ind + 2) ++ (serArrItems (ind + 2) v vs ++
        ('\n' :: (jsonSpaces ind ++ [']'])))) := by
  simp [serVal]

theorem serVal_objNil (ind : Nat) : serVal ind (.obj []) = ['\x7b', '\x7d'] := by
  simp [serVal]

theorem serVal_objCons (ind : Nat) (f : String × JVal) (fs : List (String × JVal)) :
    serVal ind (.obj (f :: fs)) =
      '\x7b' :: '\n' :: (jsonSpaces (ind + 2) ++ (serObjItems (ind + 2) f fs ++
        ('\n' :: (jsonSpaces ind ++ ['\x7d'])))) := by
  simp [serVal]

theorem serArrItems_nil (ind : Nat) (v : JVal) : serArrItems ind v [] = serVal ind v := by
  simp [serArrItems]

theorem serArrItems_cons_eq (ind : Nat) (v w : JVal) (vs : List JVal) :
    serArrItems ind v (w :: vs) =
      serVal ind v ++ (',' :: '\n' :: (jsonSpaces ind ++ serArrItems ind w vs)) := by
  simp [serArrItems]

theorem serObjItems_nil (ind : Nat) (k : String) (v : JVal) :
    serObjItems ind (k, v) [] = serStr k ++ (':' :: ' ' :: serVal ind v) := by
  simp [serObjItems]

theorem serObjItems_cons_eq (ind : Nat) (k : String) (v : JVal) (g : String × JVal)
    (gs : List (String × JVal)) :
    serObjItems ind (k, v) (g :: gs) =
      serStr k ++ (':' :: ' ' :: (serVal ind v ++
        (',' :: '\n' :: (jsonSpaces ind ++ serObjItems ind g gs)))) := by
  simp [serObjItems]

theorem canon_arrCons (v : JVal) (vs : List JVal) :
    canon (.arr (v :: vs)) = (canon v && canonElems vs) := by
  simp [canon, canonElems]

theorem canon_objCons (f : String × JVal) (fs : List (String × JVal)) :
    canon (.obj (f :: fs)) = canonFields (f :: fs) := by
  simp [canon]

theorem canonFields_cons (k : String) (v : JVal) (fs : List (String × JVal)) :
    canonFields ((k, v) :: fs) = (!(hasKey fs k) && canon v && canonFields fs) := by
  simp [canonFields]

theorem jsize_arr (es : List JVal) : jsize (.arr es) = 1 + jsizeElems es := by
  simp [jsize]

theorem jsize_obj (fs : List (String × JVal)) : jsize (.obj fs) = 1 + jsizeFields fs := by
  simp [jsize]

theorem jsizeElems_cons (v : JVal) (vs : List JVal) :
    jsizeElems (v :: vs) = 1 + jsize v + jsizeElems vs := by
  simp [jsizeElems]

theorem jsizeFields_cons (k : String) (v : JVal) (fs : List (String × JVal)) :
    jsizeFields ((k, v) :: fs) = 1 + jsize v + jsizeFields fs := by
  simp [jsizeFields]


theorem parseVal_succ_str (f : Nat) {l X : List Char} (h : skipWs l = '"' :: X) :
    parseVal (f + 1) l = (parseStrBody X).map (fun p => (.str (String.mk p.1), p.2)) := by
  simp only [parseVal, h]
  rfl

theorem parseVal_succ_arr (f : Nat) {l X : List Char} {c1 : Char} {r2 : List Char}
    (h : skipWs l = '[' :: X) (h2 : skipWs X = c1 :: r2) :
    parseVal (f + 1) l =
      (if c1 = ']' then some (.arr [], r2)
       else (parseElems f (c1 :: r2)).map (fun p => (.arr p.1, p.2))) := by
  simp only [parseVal, h, h2]
  rfl

theorem parseVal_succ_obj (f : Nat) {l X : List Char} {c1 : Char} {r2 : List Char}
    (h : skipWs l = '\x7b' :: X) (h2 : skipWs X = c1 :: r2) :
    parseVal (f + 1) l =
      (if c1 = '\x7d' then some (.obj [], r2)
       else (parseFields f (c1 :: r2)).map (fun p => (.obj (pyDictOfPairs p.1), p.2))) := by
  simp only [parseVal, h, h2]
  rfl

theorem parseVal_succ_null (f : Nat) {l X : List Char} (h : skipWs l = 'n' :: X) :
    parseVal (f + 1) l = (expectChars ['u', 'l', 'l'] X).map (fun r2 => (.null, r2)) := by
  simp only [parseVal, h]
  rfl

theorem parseVal_succ_true (f : Nat) {l X : List Char} (h : skipWs l = 't' :: X) :
    parseVal (f + 1) l = (expectChars ['r', 'u', 'e'] X).map (fun r2 => (.bool true, r2)) := by
  simp only [parseVal, h]
  rfl

theorem parseVal_succ_false (f : Nat) {l X : List Char} (h : skipWs l = 'f' :: X) :
    parseVal (f + 1) l =
      (expectChars ['a', 'l', 's', 'e'] X).map (fun r2 => (.bool false, r2)) := by
  simp only [parseVal, h]
  rfl

theorem parseVal_succ_num (f : Nat) {l X : List Char} {c : Char} (h : skipWs l = c :: X)
    (h1 : c ≠ '"') (h2 : c ≠ '[') (h3 : c ≠ '\x7b') (h4 : c ≠ 'n') (h5 : c ≠ 't')
    (h6 : c ≠ 'f') :
    parseVal (f + 1) l = parseNum (c :: X) := by
  simp only [parseVal, h]
  show (if c = '"' then _ else _) = _
  rw [if_neg h1, if_neg h2, if_neg h3, if_neg h4, if_neg h5, if_neg h6]

theorem parseElems_step (f : Nat) (l : List Char) {v : JVal} {r' : List Char} {c : Char}
    {X : List Char} (h1 : parseVal f l = some (v, r')) (h2 : skipWs r' = c :: X) :
    parseElems (f + 1) l =
      (if c = ',' then
        match parseElems f X with
        | some (vs, r3) => some (v :: vs, r3)
        | none => none
      else if c = ']' then some ([v], X)
      else none) := by
  simp only [parseElems, h1, h2]

theorem parseFields_step (f : Nat) (l : List Char) {R k r1 r2 r3 : List Char} {v : JVal}
    {c2 : Char} {r4 : List Char}
    (h1 : skipWs l = '"' :: R) (h2 : parseStrBody R = some (k, r1))
    (h3 : skipWs r1 = ':' :: r2) (h4 : parseVal f r2 = some (v, r3))
    (h5 : skipWs r3 = c2 :: r4) :
    parseFields (f + 1) l =
      (if c2 = ',' then
        match parseFields f r4 with
        | some (fs, r5) => some ((String.mk k, v) :: fs, r5)
        | none => none
      else if c2 = '\x7d' then some ([(String.mk k, v)], r4)
      else none) := by
  simp only [parseFields, h1, h2, h3, h4, h5]
  rfl



mutual

theorem parseVal_ser (fuel ind : Nat) (v : JVal) (r : List Char) (hc : canon v = true)
    (hf : jsize v ≤ fuel) (hr : numOkAfter r) :
    parseVal fuel (serVal ind v ++ r) = some (v, r) := by
  cases fuel with
  | zero => exact absurd hf (by have := jsize_pos v; omega)
  | succ f =>
    cases v with
    | null =>
      rw [serVal_null]
      simp only [List.cons_append]
      rw [parseVal_succ_null f (skipWs_not_ws (by decide) _)]
      simp [expectChars, List.isPrefixOf]
    | bool b =>
      cases b with
      | true =>
        rw [serVal_true]
        simp only [List.cons_append]
        rw [parseVal_succ_true f (skipWs_not_ws (by decide) _)]
        simp [expectChars, List.isPrefixOf]
      | false =>
        rw [serVal_false]
        simp only [List.cons_append]
        rw [parseVal_succ_false f (skipWs_not_ws (by decide) _)]
        simp [expectChars, List.isPrefixOf]
    | int n =>
      rw [serVal_int]
      obtain ⟨c, cs, hcs, hd⟩ := serInt_shape n
      have hfacts : isJsonWs c = false ∧ c ≠ '"' ∧ c ≠ '[' ∧ c ≠ '\x7b' ∧ c ≠ 'n' ∧
          c ≠ 't' ∧ c ≠ 'f' := by
        rcases hd with rfl | hd
        · exact ⟨by decide, by decide, by decide, by decide, by decide, by decide,
            by decide⟩
        · fin_cases hd <;>
            exact ⟨by decide, by decide, by decide, by decide, by decide, by decide,
              by decide⟩
      rw [hcs]
      simp only [List.cons_append]
      rw [parseVal_succ_num f (skipWs_not_ws hfacts.1 _) hfacts.2.1 hfacts.2.2.1
        hfacts.2.2.2.1 hfacts.2.2.2.2.1 hfacts.2.2.2.2.2.1 hfacts.2.2.2.2.2.2]
      rw [← List.cons_append, ← hcs]
      exact parseNum_serInt n r hr
    | float tok => exact absurd hc (by simp [canon])
    | str s =>
      rw [serVal_str, serStr_shape]
      simp only [List.cons_append]
      rw [parseVal_succ_str f (skipWs_not_ws (by decide) _)]
      rw [List.append_assoc]
      simp only [List.cons_append, List.nil_append]
      rw [parseStrBody_ser]
      simp [stringMk_data]
    | arr es =>
      cases es with
      | nil =>
        rw [serVal_arrNil]
        simp only [List.cons_append]
        rw [parseVal_succ_arr f (skipWs_not_ws (by decide) _) (skipWs_not_ws (by decide) _)]
        rw [if_pos rfl]
        simp
      | cons w ws =>
        rw [canon_arrCons, Bool.and_eq_true] at hc
        rw [jsize_arr, jsizeElems_cons] at hf
        obtain ⟨c0, cs0, hitems, hnws0, hne0⟩ := serArrItems_cons (ind + 2) w ws hc.1
        rw [serVal_arrCons]
        simp only [List.cons_append, List.append_assoc, List.nil_append]
        have h2 : skipWs ('\n' :: (jsonSpaces (ind + 2) ++ (serArrItems (ind + 2) w ws ++
            ('\n' :: (jsonSpaces ind ++ (']' :: r)))))) =
            c0 :: (cs0 ++ ('\n' :: (jsonSpaces ind ++ (']' :: r)))) := by
          rw [skipWs_nlsp, hitems]
          simp only [List.cons_append]
          exact skipWs_not_ws hnws0 _
        rw [parseVal_succ_arr f (skipWs_not_ws (by decide) _) h2]
        rw [if_neg hne0]
        rw [show c0 :: (cs0 ++ ('\n' :: (jsonSpaces ind ++ (']' :: r)))) =
          serArrItems (ind + 2) w ws ++ ('\n' :: (jsonSpaces ind ++ (']' :: r))) from by
            rw [hitems]; simp]
        rw [parseElems_ser f (ind + 2) ind w ws r hc.1 hc.2 (by rw [jsizeElems_cons]; omega)]
        rfl
    | obj fs =>
      cases fs with
      | nil =>
        rw [serVal_objNil]
        simp only [List.cons_append]
        rw [parseVal_succ_obj f (skipWs_not_ws (by decide) _) (skipWs_not_ws (by decide) _)]
        rw [if_pos rfl]
        simp
      | cons g gs =>
        rw [show canon (.obj (g :: gs)) = canonFields (g :: gs) from canon_objCons g gs]
          at hc
        rw [jsize_obj] at hf
        obtain ⟨cs0, hitems⟩ := serObjItems_cons (ind + 2) g gs
        rw [serVal_objCons]
        simp only [List.cons_append, List.append_assoc, List.nil_append]
        have h2 : skipWs ('\n' :: (jsonSpaces (ind + 2) ++ (serObjItems (ind + 2) g gs ++
            ('\n' :: (jsonSpaces ind ++ ('\x7d' :: r)))))) =
            '"' :: (cs0 ++ ('\n' :: (jsonSpaces ind ++ ('\x7d' :: r)))) := by
          rw [skipWs_nlsp, hitems]
          simp only [List.cons_append]
          exact skipWs_not_ws (by decide) _
        rw [parseVal_succ_obj f (skipWs_not_ws (by decide) _) h2]
        rw [if_neg (by decide)]
        rw [show ('"' : Char) :: (cs0 ++ ('\n' :: (jsonSpaces ind ++ ('\x7d' :: r)))) =
          serObjItems (ind + 2) g gs ++ ('\n' :: (jsonSpaces ind ++ ('\x7d' :: r))) from by
            rw [hitems]; simp]
        have hjf : jsizeFields (g :: gs) ≤ f := by omega
        rw [parseFields_ser f (ind + 2) ind g gs r hc hjf]
        simp [pyDictOfPairs_eq hc]
termination_by (fuel, 0)

theorem parseElems_ser (fuel ind indC : Nat) (v : JVal) (vs : List JVal) (r : List Char)
    (hcv : canon v = true) (hcvs : canonElems vs = true)
    (hf : jsizeElems (v :: vs) ≤ fuel) :
    parseElems fuel (serArrItems ind v vs ++ ('\n' :: (jsonSpaces indC ++ (']' :: r)))) =
      some (v :: vs, r) := by
  rw [jsizeElems_cons] at hf
  cases fuel with
  | zero => exact absurd hf (by have := jsize_pos v; omega)
  | succ f =>
    cases vs with
    | nil =>
      rw [serArrItems_nil]
      have hpv : parseVal f (serVal ind v ++ ('\n' :: (jsonSpaces indC ++ (']' :: r)))) =
          some (v, '\n' :: (jsonSpaces indC ++ (']' :: r))) :=
        parseVal_ser f ind v _ hcv (by omega) ⟨by decide, by decide, by decide, by decide⟩
      have h2 : skipWs ('\n' :: (jsonSpaces indC ++ (']' :: r))) = ']' :: r := by
        rw [skipWs_nlsp]
        exact skipWs_not_ws (by decide) _
      rw [parseElems_step f _ hpv h2]
      rw [if_neg (by decide), if_pos rfl]
    | cons w ws =>
      rw [show canonElems (w :: ws) = (canon w && canonElems ws) from by simp [canonElems],
        Bool.and_eq_true] at hcvs
      rw [serArrItems_cons_eq]
      simp only [List.append_assoc, List.cons_append]
      have hpv : parseVal f (serVal ind v ++ (',' :: '\n' :: (jsonSpaces ind ++
          (serArrItems ind w ws ++ ('\n' :: (jsonSpaces indC ++ (']' :: r))))))) =
          some (v, ',' :: '\n' :: (jsonSpaces ind ++
            (serArrItems ind w ws ++ ('\n' :: (jsonSpaces indC ++ (']' :: r)))))) :=
        parseVal_ser f ind v _ hcv (by omega) ⟨by decide, by decide, by decide, by decide⟩
      rw [parseElems_step f _ hpv (skipWs_not_ws (by decide) _)]
      rw [if_pos rfl]
      have hrec : parseElems f ('\n' :: (jsonSpaces ind ++ (serArrItems ind w ws ++
          ('\n' :: (jsonSpaces indC ++ (']' :: r)))))) = some (w :: ws, r) := by
        rw [parseElems_eq_of_skipWs (serArrItems ind w ws ++
          ('\n' :: (jsonSpaces indC ++ (']' :: r)))) (by rw [skipWs_nlsp])]
        exact parseElems_ser f ind indC w ws r hcvs.1 hcvs.2 (by
          have h := hf
          rw [jsizeElems_cons] at h
          rw [jsizeElems_cons]
          have := jsize_pos v
          omega)
      rw [hrec]
termination_by (fuel, 1)

theorem parseFields_ser (fuel ind indC : Nat) (g : String × JVal)
    (gs : List (String × JVal)) (r : List Char) (hcf : canonFields (g :: gs) = true)
    (hf : jsizeFields (g :: gs) ≤ fuel) :
    parseFields fuel (serObjItems ind g gs ++ ('\n' :: (jsonSpaces indC ++ ('\x7d' :: r)))) =
      some (g :: gs, r) := by
  obtain ⟨k, v⟩ := g
  rw [jsizeFields_cons] at hf
  rw [canonFields_cons] at hcf
  simp only [Bool.and_eq_true, Bool.not_eq_true'] at hcf
  obtain ⟨⟨hk, hcv⟩, hcgs⟩ := hcf
  cases fuel with
  | zero => exact absurd hf (by have := jsize_pos v; omega)
  | succ f =>
    cases gs with
    | nil =>
      rw [serObjItems_nil, serStr_shape]
      simp only [List.cons_append, List.append_assoc, List.nil_append]
      have hsb : parseStrBody (serStrBody k.data ++ ('"' :: (':' :: ' ' :: (serVal ind v ++
          ('\n' :: (jsonSpaces indC ++ ('\x7d' :: r))))))) =
          some (k.data, ':' :: ' ' :: (serVal ind v ++
            ('\n' :: (jsonSpaces indC ++ ('\x7d' :: r))))) := parseStrBody_ser _ _
      have hpv : parseVal f (' ' :: (serVal ind v ++ ('\n' :: (jsonSpaces indC ++
          ('\x7d' :: r))))) = some (v, '\n' :: (jsonSpaces indC ++ ('\x7d' :: r))) := by
        rw [parseVal_eq_of_skipWs (serVal ind v ++ ('\n' :: (jsonSpaces indC ++
          ('\x7d' :: r)))) (by rw [skipWs_cons]; rw [if_pos (by decide)])]
        exact parseVal_ser f ind v _ hcv (by omega)
          ⟨by decide, by decide, by decide, by decide⟩
      have h5 : skipWs ('\n' :: (jsonSpaces indC ++ ('\x7d' :: r))) = '\x7d' :: r := by
        rw [skipWs_nlsp]
        exact skipWs_not_ws (by decide) _
      rw [parseFields_step f _ (skipWs_not_ws (by decide) _) hsb
        (skipWs_not_ws (by decide) _) hpv h5]
      rw [if_neg (by decide), if_pos rfl]
    | cons g2 gs2 =>
      rw [serObjItems_cons_eq, serStr_shape]
      simp only [List.cons_append, List.append_assoc, List.nil_append]
      have hsb := parseStrBody_ser k.data (':' :: ' ' :: (serVal ind v ++
        (',' :: '\n' :: (jsonSpaces ind ++ (serObjItems ind g2 gs2 ++
          ('\n' :: (jsonSpaces indC ++ ('\x7d' :: r))))))))
      have hpv : parseVal f (' ' :: (serVal ind v ++ (',' :: '\n' :: (jsonSpaces ind ++
          (serObjItems ind g2 gs2 ++ ('\n' :: (jsonSpaces indC ++ ('\x7d' :: r)))))))) =
          some (v, ',' :: '\n' :: (jsonSpaces ind ++ (serObjItems ind g2 gs2 ++
            ('\n' :: (jsonSpaces indC ++ ('\x7d' :: r)))))) := by
        rw [parseVal_eq_of_skipWs (serVal ind v ++ (',' :: '\n' :: (jsonSpaces ind ++
          (serObjItems ind g2 gs2 ++ ('\n' :: (jsonSpaces indC ++ ('\x7d' :: r)))))))
          (by rw [skipWs_cons]; rw [if_pos (by decide)])]
        exact parseVal_ser f ind v _ hcv (by omega)
          ⟨by decide, by decide, by decide, by decide⟩
      rw [parseFields_step f _ (skipWs_not_ws (by decide) _) hsb
        (skipWs_not_ws (by decide) _) hpv (skipWs_not_ws (by decide) _)]
      rw [if_pos rfl]
      have hrec : parseFields f ('\n' :: (jsonSpaces ind ++ (serObjItems ind g2 gs2 ++
          ('\n' :: (jsonSpaces indC ++ ('\x7d' :: r)))))) = some (g2 :: gs2, r) := by
        rw [parseFields_eq_of_skipWs (serObjItems ind g2 gs2 ++
          ('\n' :: (jsonSpaces indC ++ ('\x7d' :: r)))) (by rw [skipWs_nlsp])]
        exact parseFields_ser f ind indC g2 gs2 r hcgs
          (by have := jsize_pos v; omega)
      rw [hrec, stringMk_data]
termination_by (fuel, 1)

end


theorem serVal_float (ind : Nat) (tok : String) :
    serVal ind (.float tok) = tok.data := by
  simp [serVal]

mutual

theorem jsize_le_ser (ind : Nat) (v : JVal) : jsize v ≤ (serVal ind v).length + 1 := by
  match v with
  | .null => simp [jsize, serVal_null]
  | .bool true => simp [jsize, serVal_true]
  | .bool false => simp [jsize, serVal_false]
  | .int n => simp [jsize, serVal_int]
  | .float tok => simp [jsize, serVal_float]
  | .str s => simp [jsize, serVal_str, serStr_shape]
  | .arr [] => simp [jsize, jsizeElems, serVal_arrNil]
  | .arr (w :: ws) =>
    have h := jsizeElems_le_ser (ind + 2) w ws
    rw [jsize_arr, serVal_arrCons]
    simp only [List.length_cons, List.length_append, jsonSpaces,
      List.length_replicate, List.length_nil]
    omega
  | .obj [] => simp [jsize, jsizeFields, serVal_objNil]
  | .obj ((k, w) :: gs) =>
    have h := jsizeFields_le_ser (ind + 2) k w gs
    rw [jsize_obj, serVal_objCons]
    simp only [List.length_cons, List.length_append, jsonSpaces,
      List.length_replicate, List.length_nil]
    omega
termination_by sizeOf v
decreasing_by all_goals (first | (simp; omega) | simp)

theorem jsizeElems_le_ser (ind : Nat) (v : JVal) (vs : List JVal) :
    jsizeElems (v :: vs) ≤ (serArrItems ind v vs).length + 2 := by
  match vs with
  | [] =>
    have h := jsize_le_ser ind v
    rw [jsizeElems_cons, serArrItems_nil]
    simp only [jsizeElems]
    omega
  | w :: ws =>
    have h1 := jsize_le_ser ind v
    have h2 := jsizeElems_le_ser ind w ws
    rw [jsizeElems_cons, serArrItems_cons_eq]
    simp only [List.length_append, List.length_cons, jsonSpaces, List.length_replicate]
    omega
termination_by 1 + sizeOf v + sizeOf vs
decreasing_by all_goals (first | (simp; omega) | simp)

theorem jsizeFields_le_ser (ind : Nat) (k : String) (v : JVal)
    (gs : List (String × JVal)) :
    jsizeFields ((k, v) :: gs) ≤ (serObjItems ind (k, v) gs).length + 2 := by
  match gs with
  | [] =>
    have h := jsize_le_ser ind v
    rw [jsizeFields_cons, serObjItems_nil]
    simp only [jsizeFields, List.length_append, List.length_cons]
    omega
  | (k2, v2) :: gs2 =>
    have h1 := jsize_le_ser ind v
    have h2 := jsizeFields_le_ser ind k2 v2 gs2
    rw [jsizeFields_cons, serObjItems_cons_eq]
    simp only [List.length_append, List.length_cons, jsonSpaces, List.length_replicate]
    omega
termination_by 1 + sizeOf k + sizeOf v + sizeOf gs
decreasing_by all_goals (first | (simp; omega) | simp)

end

/-- The round trip: the model of `json.loads` recovers every canonical value
from its `json.dumps(..., ensure_ascii=False, indent=2)` serialization. -/
theorem jsonLoads_dumps (v : JVal) (hc : canon v = true) :
    jsonLoads (jsonDumps v) = some v := by
  unfold jsonLoads jsonDumps
  rw [show (String.mk (serVal 0 v)).data = serVal 0 v from rfl]
  have hb := jsize_le_ser 0 v
  have hp := parseVal_ser ((serVal 0 v).length + 1) 0 v [] hc (by omega) trivial
  rw [List.append_nil] at hp
  rw [hp]
  simp [skipWs]


/-! ## Base64 (`base64.b64encode` / `base64.b64decode`)

Bytes are `Nat`s below 256. -/

def b64chars : List Char :=
  "ABCDEFGHIJKLMNOPQRSTUVWXYZabcdefghijklmnopqrstuvwxyz0123456789+/".data

def b64enc (i : Nat) : Char := b64chars.getD i 'A'

def b64decChar (c : Char) : Option Nat := List.findIdx? (fun d => d == c) b64chars

/-- `base64.b64encode`: three bytes to four characters, `=`-padded. -/
def b64encode : List Nat → List Char
  | [] => []
  | [b1] => [b64enc (b1 / 4), b64enc (b1 % 4 * 16), '=', '=']
  | [b1, b2] => [b64enc (b1 / 4), b64enc (b1 % 4 * 16 + b2 / 16), b64enc (b2 % 16 * 4), '=']
  | b1 :: b2 :: b3 :: rest =>
    b64enc (b1 / 4) :: b64enc (b1 % 4 * 16 + b2 / 16) :: b64enc (b2 % 16 * 4 + b3 / 64) ::
      b64enc (b3 % 64) :: b64encode rest

def b64decodeQuads : List Char → Option (List Nat)
  | [] => some []
  | c1 :: c2 :: c3 :: c4 :: rest =>
    match b64decChar c1, b64decChar c2 with
    | some x1, some x2 =>
      if c3 = '=' then
        if c4 = '=' ∧ rest = [] then some [x1 * 4 + x2 / 16] else none
      else
        match b64decChar c3 with
        | some x3 =>
          if c4 = '=' then
            if rest = [] then some [x1 * 4 + x2 / 16, x2 % 16 * 16 + x3 / 4] else none
          else
            match b64decChar c4 with
            | some x4 =>
              (b64decodeQuads rest).map
                (fun bs => (x1 * 4 + x2 / 16) :: (x2 % 16 * 16 + x3 / 4) ::
                  (x3 % 4 * 64 + x4) :: bs)
            | none => none
        | none => none
    | _, _ => none
  | _ => none

def b64IsAlphabetOrPad (c : Char) : Bool := (b64decChar c).isSome || c == '='

/-- `base64.b64decode` with default validation: characters outside the
alphabet are discarded, the rest must decode as full quads with padding
only at the very end. -/
def b64decode (cs : List Char) : Option (List Nat) :=
  b64decodeQuads (cs.filter b64IsAlphabetOrPad)

/-- `str.rstrip('=')`. -/
def rstripEq (l : List Char) : List Char := (l.reverse.dropWhile (· == '=')).reverse

/-- Re-padding as done by `_decode_imap_utf7`:
`missing = len % 4; if missing: s += '=' * (4 - missing)`. -/
def addB64Padding (l : List Char) : List Char :=
  let missing := l.length % 4
  if missing ≠ 0 then l ++ List.replicate (4 - missing) '=' else l

theorem b64decChar_enc : ∀ x < 64, b64decChar (b64enc x) = some x := by decide

theorem b64enc_ne_pad (x : Nat) : b64enc x ≠ '=' := by
  by_cases h : x < 64
  · have : ∀ y < 64, b64enc y ≠ '=' := by decide
    exact this x h
  · unfold b64enc
    rw [List.getD_eq_default _ _ (by
      rw [show b64chars.length = 64 from by decide]
      omega)]
    decide

theorem b64decChar_enc_isSome (x : Nat) : (b64decChar (b64enc x)).isSome = true := by
  by_cases h : x < 64
  · rw [b64decChar_enc x h]
    rfl
  · unfold b64enc
    rw [List.getD_eq_default _ _ (by
      rw [show b64chars.length = 64 from by decide]
      omega)]
    decide

theorem b64encode_alphabet (bs : List Nat) :
    ∀ c ∈ b64encode bs, b64IsAlphabetOrPad c = true := by
  match bs with
  | [] => intro c hc; simp [b64encode] at hc
  | [b1] =>
    intro c hc
    simp only [b64encode, List.mem_cons, List.mem_singleton, List.not_mem_nil,
      or_false] at hc
    rcases hc with rfl | rfl | rfl | rfl <;>
      simp [b64IsAlphabetOrPad, b64decChar_enc_isSome]
  | [b1, b2] =>
    intro c hc
    simp only [b64encode, List.mem_cons, List.mem_singleton, List.not_mem_nil,
      or_false] at hc
    rcases hc with rfl | rfl | rfl | rfl <;>
      simp [b64IsAlphabetOrPad, b64decChar_enc_isSome]
  | b1 :: b2 :: b3 :: rest =>
    intro c hc
    simp only [b64encode, List.mem_cons] at hc
    rcases hc with rfl | rfl | rfl | rfl | hc
    · simp [b64IsAlphabetOrPad, b64decChar_enc_isSome]
    · simp [b64IsAlphabetOrPad, b64decChar_enc_isSome]
    · simp [b64IsAlphabetOrPad, b64decChar_enc_isSome]
    · simp [b64IsAlphabetOrPad, b64decChar_enc_isSome]
    · exact b64encode_alphabet rest c hc

theorem b64decodeQuads_encode (bs : List Nat) (h : ∀ b ∈ bs, b < 256) :
    b64decodeQuads (b64encode bs) = some bs := by
  match bs with
  | [] => rfl
  | [b1] =>
    have hb1 : b1 < 256 := h b1 (by simp)
    have e1 := b64decChar_enc (b1 / 4) (by omega)
    have e2 := b64decChar_enc (b1 % 4 * 16) (by omega)
    simp [b64encode, b64decodeQuads, e1, e2]
    omega
  | [b1, b2] =>
    have hb1 : b1 < 256 := h b1 (by simp)
    have hb2 : b2 < 256 := h b2 (by simp)
    have e1 := b64decChar_enc (b1 / 4) (by omega)
    have e2 := b64decChar_enc (b1 % 4 * 16 + b2 / 16) (by omega)
    have e3 := b64decChar_enc (b2 % 16 * 4) (by omega)
    have n3 := b64enc_ne_pad (b2 % 16 * 4)
    simp [b64encode, b64decodeQuads, e1, e2, e3, n3]
    omega
  | b1 :: b2 :: b3 :: rest =>
    have hb1 : b1 < 256 := h b1 (by simp)
    have hb2 : b2 < 256 := h b2 (by simp)
    have hb3 : b3 < 256 := h b3 (by simp)
    have hrec := b64decodeQuads_encode rest (fun b hb => h b (by simp [hb]))
    have e1 := b64decChar_enc (b1 / 4) (by omega)
    have e2 := b64decChar_enc (b1 % 4 * 16 + b2 / 16) (by omega)
    have e3 := b64decChar_enc (b2 % 16 * 4 + b3 / 64) (by omega)
    have e4 := b64decChar_enc (b3 % 64) (by omega)
    have n3 := b64enc_ne_pad (b2 % 16 * 4 + b3 / 64)
    have n4 := b64enc_ne_pad (b3 % 64)
    simp [b64encode, b64decodeQuads, e1, e2, e3, e4, n3, n4, hrec]
    omega

theorem b64decode_encode (bs : List Nat) (h : ∀ b ∈ bs, b < 256) :
    b64decode (b64encode bs) = some bs := by
  unfold b64decode
  rw [List.filter_eq_self.mpr (b64encode_alphabet bs)]
  exact b64decodeQuads_encode bs h

/-! ## IMAP modified UTF-7 folder-name codec (`email_manager.py`) -/

theorem rstripEq_append (a E : List Char) (hE : ∃ c ∈ E, (c == '=') = false) :
    rstripEq (a ++ E) = a ++ rstripEq E := by
  unfold rstripEq
  rw [List.reverse_append, List.dropWhile_append]
  have hne : (List.dropWhile (fun x => x == '=') E.reverse).isEmpty = false := by
    by_contra h
    simp only [Bool.not_eq_false, List.isEmpty_iff] at h
    rw [List.dropWhile_eq_nil_iff] at h
    obtain ⟨c, hc, hcp⟩ := hE
    have := h c (List.mem_reverse.mpr hc)
    simp [hcp] at this
  rw [hne]
  simp

theorem addB64Padding_cons4 (a b c d : Char) (X : List Char) :
    addB64Padding (a :: b :: c :: d :: X) = a :: b :: c :: d :: addB64Padding X := by
  simp only [addB64Padding, List.length_cons]
  have hm : (X.length + 1 + 1 + 1 + 1) % 4 = X.length % 4 := by omega
  rw [hm]
  by_cases h : X.length % 4 = 0 <;> simp [h]

theorem b64encode_head (r : Nat) (rs : List Nat) : b64enc (r / 4) ∈ b64encode (r :: rs) := by
  match rs with
  | [] => simp [b64encode]
  | [a] => simp [b64encode]
  | a :: b :: t => simp [b64encode]

theorem addB64Padding_rstripEq_encode (bs : List Nat) :
    addB64Padding (rstripEq (b64encode bs)) = b64encode bs := by
  match bs with
  | [] => rfl
  | [b1] =>
    have h2 : (b64enc (b1 % 4 * 16) == '=') = false := by simp [b64enc_ne_pad]
    simp [b64encode, rstripEq, addB64Padding, List.dropWhile, h2]
  | [b1, b2] =>
    have h3 : (b64enc (b2 % 16 * 4) == '=') = false := by simp [b64enc_ne_pad]
    simp [b64encode, rstripEq, addB64Padding, List.dropWhile, h3]
  | [b1, b2, b3] =>
    have h4 : (b64enc (b3 % 64) == '=') = false := by simp [b64enc_ne_pad]
    simp [b64encode, rstripEq, addB64Padding, List.dropWhile, h4]
  | b1 :: b2 :: b3 :: r :: rs =>
    have hE : ∃ c ∈ b64encode (r :: rs), (c == '=') = false :=
      ⟨b64enc (r / 4), b64encode_head r rs, by simp [b64enc_ne_pad]⟩
    have henc : b64encode (b1 :: b2 :: b3 :: r :: rs)
        = [b64enc (b1 / 4), b64enc (b1 % 4 * 16 + b2 / 16), b64enc (b2 % 16 * 4 + b3 / 64),
           b64enc (b3 % 64)] ++ b64encode (r :: rs) := rfl
    rw [henc, rstripEq_append _ _ hE]
    simp only [List.cons_append, List.nil_append]
    rw [addB64Padding_cons4, addB64Padding_rstripEq_encode (r :: rs)]

/-- `str.encode('utf-16be')` for one character. -/
def utf16beEncodeChar (c : Char) : List Nat :=
  let u := c.toNat
  if u < 0x10000 then [u / 256, u % 256]
  else
    let v := u - 0x10000
    let hi := 0xD800 + v / 0x400
    let lo := 0xDC00 + v % 0x400
    [hi / 256, hi % 256, lo / 256, lo % 256]

def utf16beEncode : List Char → List Nat
  | [] => []
  | c :: cs => utf16beEncodeChar c ++ utf16beEncode cs

/-! `bytes.decode('utf-16be')`: big-endian 16-bit units, surrogate pairs
combined, lone surrogates and odd lengths are decode errors.
`utf16bePair` consumes the low half of a surrogate pair whose high half
decoded to code unit `u`. -/
mutual

def utf16beDecode : List Nat → Option (List Char)
  | [] => some []
  | b1 :: b2 :: rest =>
    let u := b1 * 256 + b2
    if 0xD800 ≤ u ∧ u < 0xDC00 then utf16bePair u rest
    else if 0xDC00 ≤ u ∧ u < 0xE000 then none
    else (utf16beDecode rest).map (fun cs => Char.ofNat u :: cs)
  | _ => none
termination_by l => l.length

def utf16bePair (u : Nat) : List Nat → Option (List Char)
  | b3 :: b4 :: rest2 =>
    let w := b3 * 256 + b4
    if 0xDC00 ≤ w ∧ w < 0xE000 then
      (utf16beDecode rest2).map
        (fun cs => Char.ofNat (0x10000 + (u - 0xD800) * 0x400 + (w - 0xDC00)) :: cs)
    else none
  | _ => none
termination_by l => l.length

end

theorem utf16beDecode_cons (b1 b2 : Nat) (rest : List Nat) :
    utf16beDecode (b1 :: b2 :: rest) =
      (if 0xD800 ≤ b1 * 256 + b2 ∧ b1 * 256 + b2 < 0xDC00 then
        utf16bePair (b1 * 256 + b2) rest
      else if 0xDC00 ≤ b1 * 256 + b2 ∧ b1 * 256 + b2 < 0xE000 then none
      else (utf16beDecode rest).map (fun cs => Char.ofNat (b1 * 256 + b2) :: cs)) := by
  rw [utf16beDecode]

theorem utf16bePair_cons (u b3 b4 : Nat) (rest2 : List Nat) :
    utf16bePair u (b3 :: b4 :: rest2) =
      (if 0xDC00 ≤ b3 * 256 + b4 ∧ b3 * 256 + b4 < 0xE000 then
        (utf16beDecode rest2).map
          (fun cs => Char.ofNat (0x10000 + (u - 0xD800) * 0x400 + (b3 * 256 + b4 - 0xDC00)) :: cs)
      else none) := by
  rw [utf16bePair]

theorem utf16beEncodeChar_lt (c : Char) : ∀ b ∈ utf16beEncodeChar c, b < 256 := by
  intro b hb
  have hval : c.toNat < 0xD800 ∨ (0xDFFF < c.toNat ∧ c.toNat < 0x110000) := c.valid
  unfold utf16beEncodeChar at hb
  by_cases hu : c.toNat < 0x10000 <;> simp [hu] at hb <;> omega

theorem utf16beEncode_lt (cs : List Char) : ∀ b ∈ utf16beEncode cs, b < 256 := by
  match cs with
  | [] => intro b hb; simp [utf16beEncode] at hb
  | c :: cs =>
    intro b hb
    simp only [utf16beEncode, List.mem_append] at hb
    rcases hb with hb | hb
    · exact utf16beEncodeChar_lt c b hb
    · exact utf16beEncode_lt cs b hb

theorem utf16beDecode_encode (cs : List Char) :
    utf16beDecode (utf16beEncode cs) = some cs := by
  match cs with
  | [] => simp [utf16beEncode, utf16beDecode]
  | c :: cs =>
    have hrec := utf16beDecode_encode cs
    have hval : c.toNat < 0xD800 ∨ (0xDFFF < c.toNat ∧ c.toNat < 0x110000) := c.valid
    by_cases hbmp : c.toNat < 0x10000
    · have henc : utf16beEncodeChar c = [c.toNat / 256, c.toNat % 256] := by
        unfold utf16beEncodeChar
        rw [if_pos hbmp]
      have hu : c.toNat / 256 * 256 + c.toNat % 256 = c.toNat := by omega
      rw [show utf16beEncode (c :: cs) = utf16beEncodeChar c ++ utf16beEncode cs from rfl,
        henc]
      simp only [List.cons_append, List.nil_append]
      rw [utf16beDecode_cons, hu, if_neg (by omega), if_neg (by omega), hrec]
      simp [Char.ofNat_toNat]
    · have hv2 : c.toNat < 0x110000 := by omega
      set v := c.toNat - 0x10000 with hvdef
      have hvlt : v < 0x100000 := by omega
      have henc : utf16beEncodeChar c =
          [(0xD800 + v / 0x400) / 256, (0xD800 + v / 0x400) % 256,
           (0xDC00 + v % 0x400) / 256, (0xDC00 + v % 0x400) % 256] := by
        unfold utf16beEncodeChar
        rw [if_neg (by omega)]
      have hhir : (0xD800 + v / 0x400) / 256 * 256 + (0xD800 + v / 0x400) % 256
          = 0xD800 + v / 0x400 := by omega
      have hlor : (0xDC00 + v % 0x400) / 256 * 256 + (0xDC00 + v % 0x400) % 256
          = 0xDC00 + v % 0x400 := by omega
      rw [show utf16beEncode (c :: cs) = utf16beEncodeChar c ++ utf16beEncode cs from rfl,
        henc]
      simp only [List.cons_append, List.nil_append]
      rw [utf16beDecode_cons, hhir, if_pos (by omega)]
      rw [utf16bePair_cons, hlor, if_pos (by omega), hrec]
      have hval2 : 0x10000 + (0xD800 + v / 0x400 - 0xD800) * 0x400 + (0xDC00 + v % 0x400 - 0xDC00)
          = c.toNat := by omega
      rw [hval2]
      simp [Char.ofNat_toNat]

/-- Python `str.replace(a, b)` for one-character arguments. -/
def pyReplaceChar (a b : Char) (l : List Char) : List Char :=
  l.map (fun c => if c = a then b else c)

/-- `EmailManager._encode_imap_utf7`. -/
def encodeImapUtf7 (s : String) : String :=
  if pyIsAscii s then s
  else
    let b64 := b64encode (utf16beEncode s.data)
    let b64 := pyReplaceChar '/' ',' b64
    let b64 := rstripEq b64
    String.mk ('&' :: (b64 ++ ['-']))

/-- `EmailManager._decode_imap_utf7`; any failure inside the `try` returns
the input unchanged. -/
def decodeImapUtf7 (s : String) : String :=
  if s.data.head? = some '&' ∧ s.data.getLast? = some '-' then
    let b64 := (s.data.drop 1).dropLast
    if b64.isEmpty then "&"
    else
      let b64p := addB64Padding (pyReplaceChar ',' '/' b64)
      match b64decode b64p with
      | none => s
      | some bytes =>
        match utf16beDecode bytes with
        | none => s
        | some chars => String.mk chars
  else s

theorem b64encode_mem_ne_pad (r : Nat) (rs : List Nat) :
    ∃ c ∈ b64encode (r :: rs), (c == '=') = false :=
  ⟨b64enc (r / 4), b64encode_head r rs, by simp [b64enc_ne_pad]⟩

theorem rstripEq_isEmpty_false (X : List Char) (hX : ∃ c ∈ X, (c == '=') = false) :
    (rstripEq X).isEmpty = false := by
  by_contra h
  simp only [Bool.not_eq_false, List.isEmpty_iff] at h
  unfold rstripEq at h
  rw [List.reverse_eq_nil_iff, List.dropWhile_eq_nil_iff] at h
  obtain ⟨c, hc, hcp⟩ := hX
  have := h c (List.mem_reverse.mpr hc)
  simp [hcp] at this

theorem rstripEq_map (f : Char → Char) (hf : ∀ c, (f c == '=') = (c == '=')) (X : List Char) :
    rstripEq (X.map f) = (rstripEq X).map f := by
  unfold rstripEq
  rw [← List.map_reverse, List.dropWhile_map,
    show ((fun x => x == '=') ∘ f) = (fun x : Char => x == '=') from funext hf,
    ← List.map_reverse]

theorem pyReplace_unswap (c : Char) (hc : b64IsAlphabetOrPad c = true) :
    (if (if c = '/' then ',' else c) = ',' then '/' else if c = '/' then ',' else c) = c := by
  by_cases h : c = '/'
  · simp [h]
  · rw [if_neg h]
    by_cases h2 : c = ','
    · subst h2
      simp [b64IsAlphabetOrPad, b64decChar] at hc
      exact absurd hc (by decide)
    · rw [if_neg h2]

theorem pyReplaceChar_roundtrip (X : List Char) (hX : ∀ c ∈ X, b64IsAlphabetOrPad c = true) :
    pyReplaceChar ',' '/' (pyReplaceChar '/' ',' X) = X := by
  unfold pyReplaceChar
  rw [List.map_map]
  conv_rhs => rw [show X = X.map id from (List.map_id X).symm]
  apply List.map_congr_left
  intro c hc
  exact pyReplace_unswap c (hX c hc)

theorem decodeImapUtf7_encode_nonascii (s : String) (h : pyIsAscii s = false) :
    decodeImapUtf7 (encodeImapUtf7 s) = s := by
  obtain ⟨c0, cr, hdata⟩ : ∃ c0 cr, s.data = c0 :: cr := by
    cases hd : s.data with
    | nil => rw [pyIsAscii, hd] at h; simp at h
    | cons c0 cr => exact ⟨c0, cr, rfl⟩
  obtain ⟨r, rs, hbytes⟩ : ∃ r rs, utf16beEncode s.data = r :: rs := by
    rw [hdata]
    by_cases hu : c0.toNat < 0x10000
    · exact ⟨_, _, by
        rw [show utf16beEncode (c0 :: cr) = utf16beEncodeChar c0 ++ utf16beEncode cr from rfl,
          show utf16beEncodeChar c0 = [c0.toNat / 256, c0.toNat % 256] from by
            unfold utf16beEncodeChar
            rw [if_pos hu]]
        rfl⟩
    · exact ⟨_, _, by
        rw [show utf16beEncode (c0 :: cr) = utf16beEncodeChar c0 ++ utf16beEncode cr from rfl,
          show utf16beEncodeChar c0 =
              [(0xD800 + (c0.toNat - 0x10000) / 0x400) / 256,
               (0xD800 + (c0.toNat - 0x10000) / 0x400) % 256,
               (0xDC00 + (c0.toNat - 0x10000) % 0x400) / 256,
               (0xDC00 + (c0.toNat - 0x10000) % 0x400) % 256] from by
            unfold utf16beEncodeChar
            rw [if_neg hu]]
        rfl⟩
  have halpha := b64encode_alphabet (utf16beEncode s.data)
  have hBne : ∃ c ∈ pyReplaceChar '/' ',' (b64encode (utf16beEncode s.data)),
      (c == '=') = false := by
    obtain ⟨c, hc, hcp⟩ : ∃ c ∈ b64encode (utf16beEncode s.data), (c == '=') = false := by
      rw [hbytes]
      exact b64encode_mem_ne_pad r rs
    refine ⟨if c = '/' then ',' else c, List.mem_map_of_mem _ hc, ?_⟩
    by_cases h' : c = '/' <;> simp [h', hcp]
  unfold encodeImapUtf7
  rw [if_neg (by rw [h]; exact fun hh => by simp at hh)]
  unfold decodeImapUtf7
  rw [if_pos ?hcond]
  case hcond =>
    constructor
    · rfl
    · show ('&' :: (_ ++ ['-'])).getLast? = some '-'
      rw [show ('&' :: ((rstripEq (pyReplaceChar '/' ',' (b64encode (utf16beEncode s.data)))) ++ ['-']))
          = ('&' :: rstripEq (pyReplaceChar '/' ',' (b64encode (utf16beEncode s.data)))) ++ ['-'] from rfl]
      exact List.getLast?_concat _
  have hmid : (('&' :: ((rstripEq (pyReplaceChar '/' ',' (b64encode (utf16beEncode s.data)))) ++ ['-'])).drop 1).dropLast
      = rstripEq (pyReplaceChar '/' ',' (b64encode (utf16beEncode s.data))) := by
    simp [List.dropLast_concat]
  rw [hmid]
  rw [if_neg (by
    rw [rstripEq_isEmpty_false _ hBne]
    simp)]
  have hmap : pyReplaceChar ',' '/' (rstripEq (pyReplaceChar '/' ',' (b64encode (utf16beEncode s.data))))
      = rstripEq (b64encode (utf16beEncode s.data)) := by
    show List.map _ (rstripEq (List.map _ _)) = _
    rw [← rstripEq_map _ (by
      intro c
      by_cases h' : c = ',' <;> simp [h'])]
    rw [show List.map (fun c => if c = ',' then '/' else c) (List.map (fun c => if c = '/' then ',' else c) (b64encode (utf16beEncode s.data)))
        = pyReplaceChar ',' '/' (pyReplaceChar '/' ',' (b64encode (utf16beEncode s.data))) from rfl]
    rw [pyReplaceChar_roundtrip _ halpha]
  rw [hmap, addB64Padding_rstripEq_encode]
  simp only [b64decode_encode _ (utf16beEncode_lt s.data), utf16beDecode_encode]

theorem utf16beDecode_nil : utf16beDecode [] = some [] := by rw [utf16beDecode]

theorem encodeImapUtf7_ascii (s : String) (h : pyIsAscii s = true) :
    encodeImapUtf7 s = s := by
  unfold encodeImapUtf7
  rw [if_pos h]

theorem decodeImapUtf7_plain (s : String)
    (h : ¬(s.data.head? = some '&' ∧ s.data.getLast? = some '-')) :
    decodeImapUtf7 s = s := by
  unfold decodeImapUtf7
  rw [if_neg h]

theorem decode_ce_test :
    decodeImapUtf7 (String.mk ['&', 'A', 'G', 'E', '-']) = String.mk ['a'] := by
  have h1 : b64decode (addB64Padding (pyReplaceChar ',' '/'
      (((String.mk ['&', 'A', 'G', 'E', '-']).data.drop 1).dropLast))) = some [0, 97] := by
    decide
  have h2 : utf16beDecode [0, 97] = some ['a'] := by
    rw [utf16beDecode_cons, if_neg (by omega), if_neg (by omega), utf16beDecode_nil]
    show some [Char.ofNat (0 * 256 + 97)] = some ['a']
    decide
  unfold decodeImapUtf7
  rw [if_pos (by decide)]
  rw [if_neg (by decide)]
  simp only [h1, h2]

end EChat

namespace EChatCodec
open EChat

/-! ## Message codec (`message_parser.py`) -/

def MESSAGE_VERSION : String := "1.0"

def SUBJECT_PREFIX : String := "[E-Chat]"

def MESSAGE_TYPES : List String := ["text", "file", "image", "status", "system"]

/-- `self.app_info` as built in `MessageParser.__init__`. -/
def appInfo : JVal :=
  .obj [("app", .str "E-Chat"), ("version", .str "1.0.0"),
    ("protocol_version", .str MESSAGE_VERSION)]

/-- `MessageParser._create_base_message`.  `message_id` and `timestamp` come
from `MessageUtils.generate_message_id()` and `datetime.now().isoformat()`
and are passed explicitly; `raise ValueError` becomes `Except.error`. -/
def createBaseMessage (sender recipient messageType : String) (content : JVal)
    (messageId timestamp : String) : Except String JVal :=
  if validateEmail sender = false then .error "发送者邮箱格式无效"
  else if validateEmail recipient = false then .error "接收者邮箱格式无效"
  else if MESSAGE_TYPES.contains messageType = false then .error "不支持的消息类型"
  else .ok (.obj [
    ("version", .str MESSAGE_VERSION),
    ("message_id", .str messageId),
    ("type", .str messageType),
    ("sender", .str sender),
    ("recipient", .str recipient),
    ("timestamp", .str timestamp),
    ("content", content),
    ("client_info", appInfo)])

/-- `MessageParser.create_text_message`. -/
def createTextMessage (sender recipient content : String)
    (messageId timestamp : String) : Except String JVal :=
  createBaseMessage sender recipient "text" (.obj [("text", .str content)])
    messageId timestamp

/-- `MessageParser.create_file_message`; `file_data : Option (List Nat)` models
the optional `bytes` argument, and `if file_data:` is false for both `None`
and `b""`. -/
def createFileMessage (sender recipient content fileName : String) (fileSize : Int)
    (fileData : Option (List Nat)) (messageId timestamp : String) : Except String JVal :=
  let fileContent : List (String × JVal) :=
    [("text", .str content), ("file_name", .str fileName), ("file_size", .int fileSize)]
  let fileContent :=
    match fileData with
    | some bs =>
      if bs.isEmpty then fileContent
      else dictSet (dictSet fileContent "file_data" (.str (String.mk (b64encode bs))))
        "encoding" (.str "base64")
    | none => fileContent
  createBaseMessage sender recipient "file" (.obj fileContent) messageId timestamp

/-- The readable header prepended by `MessageParser.format_message_body`. -/
def headerChars (sender recipient mtype timestamp : String) : List Char :=
  "\nE-Chat Message\n==============\nFrom: ".data ++ sender.data
    ++ "\nTo: ".data ++ recipient.data
    ++ "\nType: ".data ++ mtype.data
    ++ "\nTime: ".data ++ timestamp.data
    ++ "\n\nRaw Message Data:\n-----------------\n".data

/-- `MessageParser.format_message_body`.  The `f`-string header reads
`message['sender']`, `['recipient']`, `['type']`, `['timestamp']`; the modeled
domain is messages carrying those four fields as strings (`none` otherwise).
For a file message whose content holds `file_data`, the body copy gets
`has_attachment = True` and drops `file_data` before `json.dumps`. -/
def formatMessageBody (message : JVal) : Option String :=
  match message with
  | .obj fs =>
    match dictLookup fs "type", dictLookup fs "sender", dictLookup fs "recipient",
        dictLookup fs "timestamp" with
    | some (.str mtype), some (.str sender), some (.str recipient), some (.str timestamp) =>
      let bodyFs : Option (List (String × JVal)) :=
        if mtype == "file" then
          match dictLookup fs "content" with
          | some (.obj cfs) =>
            if hasKey cfs "file_data" then
              some (dictSet fs "content"
                (.obj (dictErase (dictSet cfs "has_attachment" (.bool true)) "file_data")))
            else some fs
          | _ => none
        else some fs
      match bodyFs with
      | some bfs =>
        some (String.mk (headerChars sender recipient mtype timestamp ++ serVal 0 (.obj bfs)))
      | none => none
    | _, _, _, _ => none
  | _ => none

/-- `MessageParser._create_fallback_message`. -/
def fallbackMessage (body : String) : JVal :=
  .obj [("version", .str "unknown"),
    ("type", .str "text"),
    ("content", .obj [("text", .str (pyStrip body))]),
    ("client_info", .obj [("app", .str "Unknown"), ("version", .str "Unknown")]),
    ("fallback", .bool true)]

/-- `MessageParser._validate_message_format`.  `some b` is a normal boolean
return; `none` models a `TypeError` escaping (possible only for values on
which Python `in` or indexing raises, never for dicts). -/
def validateMessageFormat : JVal → Option Bool
  | .obj fs =>
    if hasKey fs "version" = false then some false
    else if hasKey fs "type" = false then some false
    else if hasKey fs "content" = false then some false
    else
      match dictLookup fs "type" with
      | some (.str t) =>
        if MESSAGE_TYPES.contains t = false then some false
        else
          match dictLookup fs "content" with
          | some (.obj _) => some true
          | _ => some false
      | _ => some false
  | .str s =>
    if containsSub "version".data s.data = false then some false
    else if containsSub "type".data s.data = false then some false
    else if containsSub "content".data s.data = false then some false
    else none
  | .arr es =>
    let hasStr := fun (k : String) =>
      es.any (fun e => match e with | .str s => s == k | _ => false)
    if hasStr "version" = false then some false
    else if hasStr "type" = false then some false
    else if hasStr "content" = false then some false
    else none
  | _ => none

/-- `MessageParser.parse_message_body`.  The outer `some` is a normal return
(`Option JVal` in the Python signature: `some (… )` vs the `None` return of
the last `except` arm, modeled as `none`). -/
def parseMessageBody (body : String) : Option JVal :=
  match findCharIdx '\x7b' body.data with
  | none => some (fallbackMessage body)
  | some i =>
    match jsonLoads (String.mk (body.data.drop i)) with
    | none => some (fallbackMessage body)
    | some md =>
      match validateMessageFormat md with
      | some true => some md
      | some false => some (fallbackMessage body)
      | none => none

/-- `MessageParser.format_email_subject`.  `datetime.now().strftime(...)` is
passed as `nowTs`.  `.get` defaults apply when the keys are absent; non-string
values for `message_id` would raise on `'_' in message_id` (`none`), and a
non-string `type` is outside the modeled domain. -/
def formatEmailSubject (message : JVal) (nowTs : String) : Option String :=
  match message with
  | .obj fs =>
    let mtype : Option String :=
      match dictLookup fs "type" with
      | some (.str t) => some t
      | some _ => none
      | none => some "text"
    let mid : Option String :=
      match dictLookup fs "message_id" with
      | some (.str i) => some i
      | some _ => none
      | none => some "unknown"
    match mtype, mid with
    | some t, some i =>
      let shortId : List Char :=
        if i.data.contains '_' then ((pySplitChar '_' i.data).getLastD []).take 8
        else i.data.take 8
      some (String.mk (SUBJECT_PREFIX.data ++ ' ' :: t.data ++ '_' :: nowTs.data
        ++ '_' :: shortId))
    | _, _ => none
  | _ => none

/-- `MessageParser.is_echat_message`. -/
def isEchatMessage (emailSubject : String) : Bool :=
  SUBJECT_PREFIX.data.isPrefixOf emailSubject.data

/-- `DataValidator.validate_message_length` (default `max_length = 5000`). -/
def validateMessageLength (message : String) (maxLength : Nat) : Bool :=
  message.data.length ≤ maxLength

/-- `MessageParser.validate_message_content`.  The tuple mirrors the Python
`(bool, reason)` return; exceptions inside are caught by its own
`except Exception` arm which returns `(False, …)`. -/
def validateMessageContent (message : JVal) : Bool × String :=
  match message with
  | .obj fs =>
    match validateMessageFormat (.obj fs) with
    | some true =>
      let senderOk :=
        match dictLookup fs "sender" with
        | some (.str s) => validateEmail s
        | some _ => false
        | none => true
      if senderOk = false then (false, "发送者邮箱格式无效")
      else
        let recipientOk :=
          match dictLookup fs "recipient" with
          | some (.str s) => validateEmail s
          | some _ => false
          | none => true
        if recipientOk = false then (false, "接收者邮箱格式无效")
        else
          match dictLookup fs "type", dictLookup fs "content" with
          | some (.str "text"), some (.obj cfs) =>
            (match dictLookup cfs "text" with
             | none => (false, "文本消息缺少text字段")
             | some (.str text) =>
               if validateMessageLength text 5000 = false then (false, "消息内容过长")
               else (true, "消息验证通过")
             | some _ => (false, "消息内容过长"))
          | some (.str "file"), some (.obj cfs) =>
            (match dictLookup cfs "file_name", dictLookup cfs "file_size" with
             | none, _ => (false, "文件消息缺少file_name字段")
             | some _, none => (false, "文件消息缺少file_size字段")
             | some nameV, some sizeV =>
               let sizeOk :=
                 match sizeV with
                 | .int n => decide (0 ≤ n)
                 | .bool _ => true
                 | _ => false
               if sizeOk = false then (false, "文件大小无效")
               else
                 match nameV with
                 | .str fn =>
                   if fn.data.isEmpty || (pyStrip fn).data.isEmpty then (false, "文件名无效")
                   else (true, "消息验证通过")
                 | _ => (false, "消息验证出错")
             )
          | _, _ => (true, "消息验证通过")
    | some false => (false, "消息格式无效")
    | none => (false, "消息验证出错")
  | _ =>
    match validateMessageFormat message with
    | some false => (false, "消息格式无效")
    | _ => (false, "消息验证出错")

end EChatCodec

namespace EChatMgr
open EChat EChatCodec

/-! ### Send pipeline (`EmailManager.send_message_sync`, `_send_worker`) -/

inductive SendResult where
  | ok
  | returnedFalse
  | nameError
deriving DecidableEq

structure SendTrace where
  result : SendResult
  attempts : Nat
  sleeps2 : Nat
  errorNotified : Bool
deriving DecidableEq

/-- The `while retry_count <= max_retries` loop of `send_message_sync`
(`max_retries = 2`), entered with counter `retryCount`.  `reconnectFails i`:
at iteration `i` the SMTP connection was invalid and `connect_smtp()` failed
(the `return False` path inside the `try`); `attemptFails i`: the try body
raised after the connection check.  When the loop exits by its condition,
control reaches `self._notify_error('send', str(e))`; Python unbinds `e`
at the end of each `except` block, so `str(e)` raises `NameError` before
`_notify_error` runs: the call raises instead of returning
(`errorNotified = false`). -/
def sendLoop (reconnectFails attemptFails : Nat → Bool) (retryCount : Nat) : SendTrace :=
  if h : retryCount ≤ 2 then
    if reconnectFails retryCount then
      ⟨.returnedFalse, 1, 0, false⟩
    else if attemptFails retryCount then
      let rest := sendLoop reconnectFails attemptFails (retryCount + 1)
      ⟨rest.result, rest.attempts + 1,
        rest.sleeps2 + (if retryCount + 1 ≤ 2 then 1 else 0), rest.errorNotified⟩
    else ⟨.ok, 1, 0, false⟩
  else ⟨.nameError, 0, 0, false⟩
termination_by 3 - retryCount
decreasing_by omega

/-- `send_message_sync` starts the loop at `retry_count = 0`. -/
def sendMessageSync (reconnectFails attemptFails : Nat → Bool) : SendTrace :=
  sendLoop reconnectFails attemptFails 0

/-- `_send_worker` handling of one dequeued task with `_retry_count =
retryCount`, given the outcome of `send_message_sync`.  A `False` return
re-enqueues while `retry_count < 3`; an exception lands in the worker's
`except Exception` arm, which only prints and sleeps: the task is neither
re-enqueued nor reported through any error callback. -/
inductive WorkerOutcome where
  | completed
  | requeued (newRetryCount : Nat)
  | droppedSilently
  | droppedException
deriving DecidableEq

def sendWorkerStep (r : SendResult) (retryCount : Nat) : WorkerOutcome :=
  match r with
  | .ok => .completed
  | .returnedFalse =>
    if retryCount < 3 then .requeued (retryCount + 1) else .droppedSilently
  | .nameError => .droppedException

/-! ### Inbox watcher (`check_new_messages`, `_fetch_email`) -/

structure MailMsg where
  uid : Nat
  fromAddr : String
  toAddr : String
  subject : String
  body : String
  seen : Bool

/-- `search(None, 'UNSEEN')`. -/
def searchUnseen (box : List MailMsg) : List Nat :=
  (box.filter (fun m => m.seen = false)).map MailMsg.uid

/-- Fetching with `(RFC822)` implicitly sets `\Seen`. -/
def markSeen (box : List MailMsg) (uid : Nat) : List MailMsg :=
  box.map (fun m => if m.uid = uid then ⟨m.uid, m.fromAddr, m.toAddr, m.subject, m.body, true⟩ else m)

/-- `_fetch_email`: fetch the message by id, gate on `is_echat_message`,
parse the body, add the `email_*` header fields, and return the parsed
message; `message_received_callback` is invoked exactly when the result is
`some`.  MIME attachments are outside the model (`merge_message_with_attachments`
is a no-op without them).  No set of already-delivered ids is consulted or
updated anywhere. -/
def fetchEmail (box : List MailMsg) (uid : Nat) : List MailMsg × Option JVal :=
  match box.find? (fun m => m.uid == uid) with
  | none => (box, none)
  | some m =>
    let box' := markSeen box uid
    if isEchatMessage m.subject = false then (box', none)
    else
      match parseMessageBody m.body with
      | none => (box', none)
      | some pm =>
        match pm with
        | .obj pfs =>
          let pfs := dictSet pfs "email_sender" (.str m.fromAddr)
          let pfs := dictSet pfs "email_recipient" (.str m.toAddr)
          let pfs := dictSet pfs "email_subject" (.str m.subject)
          let pfs := dictSet pfs "email_msg_id" (.str (String.mk (natToDigits uid)))
          (box', some (.obj pfs))
        | _ => (box', none)

/-- The `for msg_id in message_ids[0].split()` loop of `check_new_messages`:
each delivered pair records the fetched id and the message passed to the
callback. -/
def processFetchList (box : List MailMsg) (uids : List Nat) :
    List MailMsg × List (Nat × JVal) :=
  match uids with
  | [] => (box, [])
  | u :: us =>
    let s1 := fetchEmail box u
    let s2 := processFetchList s1.1 us
    (s2.1, (match s1.2 with | some v => [(u, v)] | none => []) ++ s2.2)

/-- `check_new_messages` on a selected mailbox: search UNSEEN, then fetch
each id. -/
def checkNewMessages (box : List MailMsg) : List MailMsg × List (Nat × JVal) :=
  processFetchList box (searchUnseen box)

/-- Two concurrent observers (the IDLE worker and the backup poller) that
both run the UNSEEN search before either fetches, then fetch their lists one
after the other; the result is every callback invocation in order. -/
def concurrentCheck (box : List MailMsg) : List (Nat × JVal) :=
  let u1 := searchUnseen box
  let u2 := searchUnseen box
  let r1 := processFetchList box u1
  let r2 := processFetchList r1.1 u2
  r1.2 ++ r2.2

/-! ### Inbox folder resolution (`_find_inbox_folder`) -/

def inboxSynonyms : List String := ["收件箱", "inbox", "邮箱"]

/-- `_find_inbox_folder`, given the listing returned by `_list_imap_folders`
and the configured `inbox_folder` (empty string when not configured).
Priorities, in source order: the configured folder when listed; exact
`'INBOX'`; decoded name in the synonym list (lowercased); `'inbox'` inside
the lowercased decoded name; `'收件'` inside the decoded name; else the
first listed folder (`lambda f: True`). -/
def findInboxFolder (availableFolders : List String) (customInbox : String) : Option String :=
  match availableFolders with
  | [] => none
  | _ =>
    let custom := pyStrip customInbox
    if custom.data.isEmpty = false && availableFolders.contains custom then some custom
    else if availableFolders.contains "INBOX" then some "INBOX"
    else
      match availableFolders.find?
          (fun f => inboxSynonyms.contains (pyLower (decodeImapUtf7 f))) with
      | some f => some f
      | none =>
        match availableFolders.find?
            (fun f => containsSub "inbox".data (pyLower (decodeImapUtf7 f)).data) with
        | some f => some f
        | none =>
          match availableFolders.find?
              (fun f => containsSub "收件".data (decodeImapUtf7 f).data) with
          | some f => some f
          | none => availableFolders.head?

/-- The resolution order as the specification words it: exact `'INBOX'`,
decoded synonym match, `'inbox'` substring, then first listed folder —
with no `'收件'`-substring tier. -/
def specResolveInbox (availableFolders : List String) : Option String :=
  match availableFolders with
  | [] => none
  | _ =>
    if availableFolders.contains "INBOX" then some "INBOX"
    else
      match availableFolders.find?
          (fun f => inboxSynonyms.contains (pyLower (decodeImapUtf7 f))) with
      | some f => some f
      | none =>
        match availableFolders.find?
            (fun f => containsSub "inbox".data (pyLower (decodeImapUtf7 f)).data) with
        | some f => some f
        | none => availableFolders.head?

end EChatMgr

open EChat EChatCodec

namespace EChatProofs
open EChat EChatCodec

theorem findCharIdx_braceFree (a r : List Char) (ha : braceFree a = true) :
    findCharIdx '\x7b' (a ++ '\x7b' :: r) = some a.length := by
  induction a with
  | nil => simp [findCharIdx]
  | cons c a ih =>
    simp only [braceFree, List.all_cons, Bool.and_eq_true] at ha
    have hc : c ≠ '\x7b' := by
      intro hh
      subst hh
      simp at ha
    have ha' : braceFree a = true := ha.2
    simp only [List.cons_append, findCharIdx, if_neg hc, List.append_eq, ih ha',
      Option.map_some, List.length_cons]
    rfl

theorem braceFree_append (a b : List Char) :
    braceFree (a ++ b) = (braceFree a && braceFree b) := by
  simp [braceFree, List.all_append]

theorem headerChars_braceFree (sender recipient mtype timestamp : String)
    (hs : braceFree sender.data = true) (hr : braceFree recipient.data = true)
    (hm : braceFree mtype.data = true) (ht : braceFree timestamp.data = true) :
    braceFree (headerChars sender recipient mtype timestamp) = true := by
  simp only [headerChars, braceFree_append, Bool.and_eq_true]
  refine ⟨⟨⟨⟨⟨⟨⟨⟨?_, hs⟩, ?_⟩, hr⟩, ?_⟩, hm⟩, ?_⟩, ht⟩, ?_⟩ <;> decide

theorem canon_appInfo : canon appInfo = true := by
  simp [appInfo, canon, canonFields, hasKey]

theorem canon_baseMessage (mid mtype sender recipient ts : String) (content : JVal)
    (hc : canon content = true) :
    canon (.obj [
      ("version", .str MESSAGE_VERSION),
      ("message_id", .str mid),
      ("type", .str mtype),
      ("sender", .str sender),
      ("recipient", .str recipient),
      ("timestamp", .str ts),
      ("content", content),
      ("client_info", appInfo)]) = true := by
  simp [canon, canonFields, hasKey, hc, canon_appInfo, appInfo]

theorem parse_header_dump (h : List Char) (f : String × JVal) (fsr : List (String × JVal))
    (hh : braceFree h = true) (hcanon : canon (.obj (f :: fsr)) = true)
    (hval : validateMessageFormat (.obj (f :: fsr)) = some true) :
    parseMessageBody (String.mk (h ++ serVal 0 (.obj (f :: fsr)))) = some (.obj (f :: fsr)) := by
  have ht : serVal 0 (JVal.obj (f :: fsr)) =
      '\x7b' :: ('\n' :: jsonSpaces (0 + 2) ++ serObjItems (0 + 2) f fsr ++
        '\n' :: jsonSpaces 0 ++ ['\x7d']) := by
    rw [serVal]
    simp
  unfold parseMessageBody
  rw [show (String.mk (h ++ serVal 0 (JVal.obj (f :: fsr)))).data
      = h ++ serVal 0 (JVal.obj (f :: fsr)) from rfl]
  rw [ht, findCharIdx_braceFree h _ hh]
  simp only [List.drop_left]
  rw [← ht]
  rw [show String.mk (serVal 0 (JVal.obj (f :: fsr))) = jsonDumps (JVal.obj (f :: fsr)) from rfl]
  simp only [jsonLoads_dumps _ hcanon, hval]

theorem c1_text (sender recipient content messageId timestamp : String) (msg : JVal)
    (hts : braceFree timestamp.data = true)
    (hok : createTextMessage sender recipient content messageId timestamp = .ok msg) :
    ∃ body, formatMessageBody msg = some body ∧ parseMessageBody body = some msg := by
  unfold createTextMessage createBaseMessage at hok
  by_cases hs : validateEmail sender = false
  · rw [if_pos hs] at hok
    exact absurd hok (by simp)
  rw [if_neg hs] at hok
  by_cases hr : validateEmail recipient = false
  · rw [if_pos hr] at hok
    exact absurd hok (by simp)
  rw [if_neg hr] at hok
  rw [if_neg (by simp [MESSAGE_TYPES])] at hok
  injection hok with hmsg
  subst hmsg
  have hs' : validateEmail sender = true := by
    revert hs
    cases validateEmail sender <;> simp
  have hr' : validateEmail recipient = true := by
    revert hr
    cases validateEmail recipient <;> simp
  have hfmt : formatMessageBody (.obj [
      ("version", .str MESSAGE_VERSION),
      ("message_id", .str messageId),
      ("type", .str "text"),
      ("sender", .str sender),
      ("recipient", .str recipient),
      ("timestamp", .str timestamp),
      ("content", .obj [("text", .str content)]),
      ("client_info", appInfo)]) = some (String.mk
        (headerChars sender recipient "text" timestamp ++ serVal 0 (.obj [
      ("version", .str MESSAGE_VERSION),
      ("message_id", .str messageId),
      ("type", .str "text"),
      ("sender", .str sender),
      ("recipient", .str recipient),
      ("timestamp", .str timestamp),
      ("content", .obj [("text", .str content)]),
      ("client_info", appInfo)]))) := by
    simp [formatMessageBody, dictLookup]
  refine ⟨_, hfmt, ?_⟩
  apply parse_header_dump
  · exact headerChars_braceFree sender recipient "text" timestamp
      (validateEmail_braceFree hs') (validateEmail_braceFree hr') (by decide) hts
  · exact canon_baseMessage messageId "text" sender recipient timestamp _
      (by simp [canon, canonFields, canonElems, hasKey])
  · simp [validateMessageFormat, hasKey, dictLookup, MESSAGE_TYPES]

theorem c1_file (sender recipient content fileName : String) (fileSize : Int)
    (bs : List Nat) (messageId timestamp : String) (msg : JVal)
    (hts : braceFree timestamp.data = true) (hbs : bs.isEmpty = false)
    (hok : createFileMessage sender recipient content fileName fileSize (some bs)
      messageId timestamp = .ok msg) :
    ∃ body fs cfs, msg = .obj fs ∧ formatMessageBody msg = some body ∧
      dictLookup fs "content" = some (.obj cfs) ∧
      dictLookup cfs "file_data" = some (.str (String.mk (b64encode bs))) ∧
      parseMessageBody body = some (.obj (dictSet fs "content"
        (.obj (dictErase (dictSet cfs "has_attachment" (.bool true)) "file_data")))) := by
  have hcf : createFileMessage sender recipient content fileName fileSize (some bs)
      messageId timestamp
      = createBaseMessage sender recipient "file" (.obj [
          ("text", .str content), ("file_name", .str fileName),
          ("file_size", .int fileSize),
          ("file_data", .str (String.mk (b64encode bs))),
          ("encoding", .str "base64")]) messageId timestamp := by
    simp [createFileMessage, dictSet, hasKey, hbs]
  rw [hcf] at hok
  unfold createBaseMessage at hok
  by_cases hs : validateEmail sender = false
  · rw [if_pos hs] at hok
    exact absurd hok (by simp)
  rw [if_neg hs] at hok
  by_cases hr : validateEmail recipient = false
  · rw [if_pos hr] at hok
    exact absurd hok (by simp)
  rw [if_neg hr] at hok
  rw [if_neg (by simp [MESSAGE_TYPES])] at hok
  injection hok with hmsg
  subst hmsg
  have hs' : validateEmail sender = true := by
    revert hs
    cases validateEmail sender <;> simp
  have hr' : validateEmail recipient = true := by
    revert hr
    cases validateEmail recipient <;> simp
  have hfmt : formatMessageBody (.obj [
      ("version", .str MESSAGE_VERSION),
      ("message_id", .str messageId),
      ("type", .str "file"),
      ("sender", .str sender),
      ("recipient", .str recipient),
      ("timestamp", .str timestamp),
      ("content", .obj [
        ("text", .str content), ("file_name", .str fileName),
        ("file_size", .int fileSize),
        ("file_data", .str (String.mk (b64encode bs))),
        ("encoding", .str "base64")]),
      ("client_info", appInfo)]) = some (String.mk
      (headerChars sender recipient "file" timestamp ++ serVal 0 (.obj [
        ("version", .str MESSAGE_VERSION),
        ("message_id", .str messageId),
        ("type", .str "file"),
        ("sender", .str sender),
        ("recipient", .str recipient),
        ("timestamp", .str timestamp),
        ("content", .obj [
          ("text", .str content), ("file_name", .str fileName),
          ("file_size", .int fileSize),
          ("encoding", .str "base64"),
          ("has_attachment", .bool true)]),
        ("client_info", appInfo)]))) := by
    simp [formatMessageBody, dictLookup, dictSet, dictErase, hasKey]
  refine ⟨_, _, [
      ("text", JVal.str content), ("file_name", JVal.str fileName),
      ("file_size", JVal.int fileSize),
      ("file_data", JVal.str (String.mk (b64encode bs))),
      ("encoding", JVal.str "base64")], rfl, hfmt, ?_, ?_, ?_⟩
  · simp [dictLookup]
  · simp [dictLookup]
  · have hd : dictSet [
        ("version", JVal.str MESSAGE_VERSION),
        ("message_id", JVal.str messageId),
        ("type", JVal.str "file"),
        ("sender", JVal.str sender),
        ("recipient", JVal.str recipient),
        ("timestamp", JVal.str timestamp),
        ("content", JVal.obj [
          ("text", JVal.str content), ("file_name", JVal.str fileName),
          ("file_size", JVal.int fileSize),
          ("file_data", JVal.str (String.mk (b64encode bs))),
          ("encoding", JVal.str "base64")]),
        ("client_info", appInfo)] "content"
        (JVal.obj (dictErase (dictSet [
          ("text", JVal.str content), ("file_name", JVal.str fileName),
          ("file_size", JVal.int fileSize),
          ("file_data", JVal.str (String.mk (b64encode bs))),
          ("encoding", JVal.str "base64")] "has_attachment" (.bool true)) "file_data"))
      = [
        ("version", JVal.str MESSAGE_VERSION),
        ("message_id", JVal.str messageId),
        ("type", JVal.str "file"),
        ("sender", JVal.str sender),
        ("recipient", JVal.str recipient),
        ("timestamp", JVal.str timestamp),
        ("content", JVal.obj [
          ("text", JVal.str content), ("file_name", JVal.str fileName),
          ("file_size", JVal.int fileSize),
          ("encoding", JVal.str "base64"),
          ("has_attachment", JVal.bool true)]),
        ("client_info", appInfo)] := by
      simp [dictSet, dictErase, hasKey]
    rw [hd]
    apply parse_header_dump
    · exact headerChars_braceFree sender recipient "file" timestamp
        (validateEmail_braceFree hs') (validateEmail_braceFree hr') (by decide) hts
    · exact canon_baseMessage messageId "file" sender recipient timestamp _
        (by simp [canon, canonFields, canonElems, hasKey])
    · simp [validateMessageFormat, hasKey, dictLookup, MESSAGE_TYPES]

theorem createBaseMessage_ok_elim (sender recipient mtype : String) (content : JVal)
    (mid ts : String) (m : JVal)
    (hok : createBaseMessage sender recipient mtype content mid ts = .ok m) :
    validateEmail sender = true ∧ validateEmail recipient = true ∧
    MESSAGE_TYPES.contains mtype = true ∧
    m = .obj [("version", .str MESSAGE_VERSION), ("message_id", .str mid),
      ("type", .str mtype), ("sender", .str sender), ("recipient", .str recipient),
      ("timestamp", .str ts), ("content", content), ("client_info", appInfo)] := by
  unfold createBaseMessage at hok
  by_cases hs : validateEmail sender = false
  · rw [if_pos hs] at hok
    exact absurd hok (by simp)
  rw [if_neg hs] at hok
  by_cases hr : validateEmail recipient = false
  · rw [if_pos hr] at hok
    exact absurd hok (by simp)
  rw [if_neg hr] at hok
  by_cases ht : MESSAGE_TYPES.contains mtype = false
  · rw [if_pos ht] at hok
    exact absurd hok (by simp)
  rw [if_neg ht] at hok
  injection hok with h
  refine ⟨?_, ?_, ?_, h.symm⟩
  · revert hs
    cases validateEmail sender <;> simp
  · revert hr
    cases validateEmail recipient <;> simp
  · revert ht
    cases MESSAGE_TYPES.contains mtype <;> simp

/-- C5 (corrected): `create_text_message` itself performs no length
check: with valid sender and recipient addresses it builds an envelope for
ANY content length (a 6000-character body included, see the counterexample).
The 5000-code-point rule lives only in `validate_message_content` /
`DataValidator.validate_message_length`, which the build path never calls:
there it holds exactly as the spec words it. -/
theorem echat_claim_C5 :
    (∀ sender recipient content messageId timestamp : String,
      validateEmail sender = true → validateEmail recipient = true →
      ∃ m, createTextMessage sender recipient content messageId timestamp = .ok m) ∧
    (∀ sender recipient content messageId timestamp : String, ∀ m : JVal,
      createTextMessage sender recipient content messageId timestamp = .ok m →
      5000 < content.data.length →
      (validateMessageContent m).1 = false) ∧
    (∀ sender recipient content messageId timestamp : String, ∀ m : JVal,
      createTextMessage sender recipient content messageId timestamp = .ok m →
      content.data.length ≤ 5000 →
      (validateMessageContent m).1 = true) ∧
    (∀ content : String, validateMessageLength content 5000 = true ↔
      content.data.length ≤ 5000) := by
  refine ⟨?_, ?_, ?_, ?_⟩
  · intro sender recipient content messageId timestamp hs hr
    refine ⟨.obj [("version", .str MESSAGE_VERSION), ("message_id", .str messageId),
      ("type", .str "text"), ("sender", .str sender), ("recipient", .str recipient),
      ("timestamp", .str timestamp), ("content", .obj [("text", .str content)]),
      ("client_info", appInfo)], ?_⟩
    unfold createTextMessage createBaseMessage
    rw [hs, hr]
    simp [MESSAGE_TYPES]
  · intro sender recipient content messageId timestamp m hok hlen
    obtain ⟨hs, hr, -, hm⟩ := createBaseMessage_ok_elim _ _ _ _ _ _ _ hok
    subst hm
    have hvml : validateMessageLength content 5000 = false := by
      unfold validateMessageLength
      rw [decide_eq_false_iff_not]
      omega
    simp [validateMessageContent, validateMessageFormat, hasKey, dictLookup,
      MESSAGE_TYPES, hs, hr, hvml]
  · intro sender recipient content messageId timestamp m hok hlen
    obtain ⟨hs, hr, -, hm⟩ := createBaseMessage_ok_elim _ _ _ _ _ _ _ hok
    subst hm
    have hvml : validateMessageLength content 5000 = true := by
      unfold validateMessageLength
      rw [decide_eq_true_eq]
      omega
    simp [validateMessageContent, validateMessageFormat, hasKey, dictLookup,
      MESSAGE_TYPES, hs, hr, hvml]
  · intro content
    unfold validateMessageLength
    rw [decide_eq_true_eq]

/-- C6 (corrected): the kind enumeration accepted by `_create_base_message`
is the five-element `MESSAGE_TYPES = [text, file, image, status, system]`,
not the four kinds {text, file, status, system} of the claim: with valid
addresses, building succeeds exactly for the five listed kinds. -/
theorem echat_claim_C6 :
    ∀ sender recipient mtype : String, ∀ content : JVal, ∀ messageId timestamp : String,
      validateEmail sender = true → validateEmail recipient = true →
      ((∃ m, createBaseMessage sender recipient mtype content messageId timestamp = .ok m)
        ↔ mtype ∈ ["text", "file", "image", "status", "system"]) := by
  intro sender recipient mtype content messageId timestamp hs hr
  constructor
  · rintro ⟨m, hok⟩
    obtain ⟨-, -, hc, -⟩ := createBaseMessage_ok_elim _ _ _ _ _ _ _ hok
    simpa [MESSAGE_TYPES] using hc
  · intro hmem
    refine ⟨.obj [("version", .str MESSAGE_VERSION), ("message_id", .str messageId),
      ("type", .str mtype), ("sender", .str sender), ("recipient", .str recipient),
      ("timestamp", .str timestamp), ("content", content),
      ("client_info", appInfo)], ?_⟩
    unfold createBaseMessage
    rw [hs, hr]
    have hc : MESSAGE_TYPES.contains mtype = true := by
      simpa [MESSAGE_TYPES] using hmem
    rw [hc]
    simp

theorem isEchat_prefix_append (rest : List Char) :
    isEchatMessage (String.mk (SUBJECT_PREFIX.data ++ rest)) = true := by
  unfold isEchatMessage
  exact List.isPrefixOf_iff_prefix.mpr ⟨rest, rfl⟩

theorem formatEmailSubject_shape (m : JVal) (nowTs s : String)
    (h : formatEmailSubject m nowTs = some s) :
    ∃ rest, s = String.mk (SUBJECT_PREFIX.data ++ rest) := by
  match m with
  | .null | .bool _ | .int _ | .float _ | .str _ | .arr _ =>
    exact absurd h (by simp [formatEmailSubject])
  | .obj fs =>
    simp only [formatEmailSubject] at h
    split at h
    · exact ⟨_, by injection h with h; exact h.symm⟩
    · nomatch h

/-- C9 (confirmed): `is_echat_message` returns false for every subject that
does not start with the fixed `SUBJECT_PREFIX` `"[E-Chat]"`, and returns
true for every subject `format_email_subject` produces. -/
theorem echat_claim_C9 :
    (∀ subject : String, (¬ ∃ t, subject.data = SUBJECT_PREFIX.data ++ t) →
      isEchatMessage subject = false) ∧
    (∀ m : JVal, ∀ nowTs s : String, formatEmailSubject m nowTs = some s →
      isEchatMessage s = true) := by
  constructor
  · intro subject hns
    cases hb : isEchatMessage subject
    · rfl
    · unfold isEchatMessage at hb
      obtain ⟨t, ht⟩ := List.isPrefixOf_iff_prefix.mp hb
      exact absurd ⟨t, ht.symm⟩ hns
  · intro m nowTs s h
    obtain ⟨rest, hs⟩ := formatEmailSubject_shape m nowTs s h
    subst hs
    exact isEchat_prefix_append rest

/-- C2 (confirmed): whenever the body has no opening brace, or the text from
the first brace on fails `json.loads`, or parses but fails
`_validate_message_format`, `parse_message_body` returns the fallback
envelope: type `text`, `content.text` the stripped body, `fallback = true`;
in particular for the body `"hello, not json at all"`. -/
theorem echat_claim_C2 :
    (∀ body : String,
      (findCharIdx '\x7b' body.data = none
        ∨ (∃ i, findCharIdx '\x7b' body.data = some i ∧
            jsonLoads (String.mk (body.data.drop i)) = none)
        ∨ (∃ i md, findCharIdx '\x7b' body.data = some i ∧
            jsonLoads (String.mk (body.data.drop i)) = some md ∧
            validateMessageFormat md = some false)) →
      parseMessageBody body = some (fallbackMessage body)) ∧
    (∀ body : String,
      getStrField (fallbackMessage body) "type" = some "text" ∧
      getField (fallbackMessage body) "fallback" = some (.bool true) ∧
      getField (fallbackMessage body) "content" = some (.obj [("text", .str (pyStrip body))])) ∧
    parseMessageBody "hello, not json at all"
      = some (fallbackMessage "hello, not json at all") ∧
    pyStrip "hello, not json at all" = "hello, not json at all" := by
  refine ⟨?_, ?_, ?_, ?_⟩
  · intro body h
    rcases h with h1 | ⟨i, hi, hl⟩ | ⟨i, md, hi, hl, hv⟩
    · simp [parseMessageBody, h1]
    · simp [parseMessageBody, hi, hl]
    · simp [parseMessageBody, hi, hl, hv]
  · intro body
    exact ⟨rfl, rfl, rfl⟩
  · rfl
  · rfl

/-- C7 (corrected): the folder-name codec round-trips every non-ASCII
string; for plain-ASCII strings the encoder is the identity and the decoder
returns the input unchanged only when it does not have the `&…-` shape —
an ASCII name such as `"&AGE-"` is NOT a fixed point of decode (see the
counterexample), so the unrestricted round-trip law of the claim fails. -/
theorem echat_claim_C7 :
    (∀ s : String, pyIsAscii s = false → decodeImapUtf7 (encodeImapUtf7 s) = s) ∧
    (∀ s : String, pyIsAscii s = true → encodeImapUtf7 s = s) ∧
    (∀ s : String, ¬(s.data.head? = some '&' ∧ s.data.getLast? = some '-') →
      decodeImapUtf7 s = s) :=
  ⟨decodeImapUtf7_encode_nonascii, encodeImapUtf7_ascii, decodeImapUtf7_plain⟩

/-- C7 counterexample: `"&AGE-"` is plain ASCII, so `_encode_imap_utf7`
returns it unchanged, but `_decode_imap_utf7` turns it into `"a"`: the
round trip and the decode-ASCII-unchanged parts of the claim both fail. -/
theorem echat_claim_C7_counterexample :
    pyIsAscii "&AGE-" = true ∧
    encodeImapUtf7 "&AGE-" = "&AGE-" ∧
    decodeImapUtf7 (encodeImapUtf7 "&AGE-") = "a" ∧
    ("a" : String) ≠ "&AGE-" := by
  have henc : encodeImapUtf7 "&AGE-" = "&AGE-" := by
    unfold encodeImapUtf7
    rw [if_pos (by decide)]
  refine ⟨by decide, henc, ?_, by decide⟩
  rw [henc]
  have h1 : b64decode (addB64Padding (pyReplaceChar ',' '/'
      ((("&AGE-" : String).data.drop 1).dropLast))) = some [0, 97] := by decide
  have h2 : utf16beDecode [0, 97] = some ['a'] := by
    rw [utf16beDecode_cons, if_neg (by omega), if_neg (by omega), utf16beDecode_nil]
    decide
  unfold decodeImapUtf7
  rw [if_pos (by decide), if_neg (by decide)]
  simp only [h1, h2]

/-- C1 (confirmed): round-trip law of the codec.  For every text envelope the
codec builds (valid addresses; the timestamp, injected into the readable
header, holding no opening brace), parsing the formatted body returns exactly
the original envelope.  For every file envelope carrying inline bytes, the
same holds except that the body copy replaces `file_data` inside `content`
with `has_attachment = true` — parsing returns the envelope with that one
field removed, while the original envelope still carries the base64-encoded
bytes for the attachment path. -/
theorem echat_claim_C1 :
    (∀ sender recipient content messageId timestamp : String, ∀ msg : JVal,
      braceFree timestamp.data = true →
      createTextMessage sender recipient content messageId timestamp = .ok msg →
      ∃ body, formatMessageBody msg = some body ∧ parseMessageBody body = some msg) ∧
    (∀ sender recipient content fileName : String, ∀ fileSize : Int, ∀ bs : List Nat,
      ∀ messageId timestamp : String, ∀ msg : JVal,
      braceFree timestamp.data = true → bs.isEmpty = false →
      createFileMessage sender recipient content fileName fileSize (some bs)
        messageId timestamp = .ok msg →
      ∃ body fs cfs, msg = .obj fs ∧ formatMessageBody msg = some body ∧
        dictLookup fs "content" = some (.obj cfs) ∧
        dictLookup cfs "file_data" = some (.str (String.mk (b64encode bs))) ∧
        parseMessageBody body = some (.obj (dictSet fs "content"
          (.obj (dictErase (dictSet cfs "has_attachment" (.bool true)) "file_data"))))) :=
  ⟨c1_text, c1_file⟩

/-- C1 witness: a concrete text envelope round-trips. -/
theorem echat_claim_C1_witness :
    ∃ body, formatMessageBody (JVal.obj [
      ("version", JVal.str "1.0"), ("message_id", JVal.str "echat_1_ab"),
      ("type", JVal.str "text"), ("sender", JVal.str "a@b.co"),
      ("recipient", JVal.str "c@d.co"), ("timestamp", JVal.str "2024-01-01T00:00:00"),
      ("content", JVal.obj [("text", JVal.str "hi")]),
      ("client_info", appInfo)]) = some body ∧
    parseMessageBody body = some (JVal.obj [
      ("version", JVal.str "1.0"), ("message_id", JVal.str "echat_1_ab"),
      ("type", JVal.str "text"), ("sender", JVal.str "a@b.co"),
      ("recipient", JVal.str "c@d.co"), ("timestamp", JVal.str "2024-01-01T00:00:00"),
      ("content", JVal.obj [("text", JVal.str "hi")]),
      ("client_info", appInfo)]) :=
  echat_claim_C1.1 "a@b.co" "c@d.co" "hi" "echat_1_ab" "2024-01-01T00:00:00" _
    (by decide) rfl

/-- C2 witness: a brace-free body takes the fallback path. -/
theorem echat_claim_C2_witness :
    parseMessageBody "no json here" = some (fallbackMessage "no json here") :=
  echat_claim_C2.1 "no json here" (Or.inl rfl)

/-- C5 witness: a short text body builds fine. -/
theorem echat_claim_C5_witness :
    ∃ m, createTextMessage "a@b.co" "c@d.co" "hi" "id1" "ts1" = .ok m :=
  echat_claim_C5.1 "a@b.co" "c@d.co" "hi" "id1" "ts1" (by decide) (by decide)

/-- C6 witness: the enumeration test at kind `text`. -/
theorem echat_claim_C6_witness :
    (∃ m, createBaseMessage "a@b.co" "c@d.co" "text" JVal.null "id1" "ts1" = .ok m)
      ↔ "text" ∈ ["text", "file", "image", "status", "system"] :=
  echat_claim_C6 "a@b.co" "c@d.co" "text" JVal.null "id1" "ts1" (by decide) (by decide)

/-- C7 witness: a one-character Chinese folder name round-trips. -/
theorem echat_claim_C7_witness :
    decodeImapUtf7 (encodeImapUtf7 "收") = "收" :=
  echat_claim_C7.1 "收" (by decide)

/-- C9 witness: a subject without the tag is rejected. -/
theorem echat_claim_C9_witness :
    isEchatMessage "spam subject" = false :=
  echat_claim_C9.1 "spam subject" (by
    rintro ⟨t, ht⟩
    have h1 : ("spam subject".data).head? = (SUBJECT_PREFIX.data ++ t).head? := by
      rw [ht]
    rw [show ("spam subject".data).head? = some 's' from rfl] at h1
    rw [show (SUBJECT_PREFIX.data ++ t).head? = some '[' from rfl] at h1
    exact absurd h1 (by decide))

namespace EChatMgrProofs
open EChatMgr

theorem sendLoop_allfail (f g : Nat → Bool) (hf : ∀ i, i ≤ 2 → f i = false)
    (hg : ∀ i, i ≤ 2 → g i = true) (rc : Nat) :
    (sendLoop f g rc).result = .nameError ∧ (sendLoop f g rc).errorNotified = false := by
  by_cases h : rc ≤ 2
  · rw [sendLoop, dif_pos h, hf rc h]
    rw [if_neg (by simp)]
    rw [hg rc h, if_pos rfl]
    exact ⟨(sendLoop_allfail f g hf hg (rc + 1)).1, (sendLoop_allfail f g hf hg (rc + 1)).2⟩
  · rw [sendLoop, dif_neg h]
    exact ⟨rfl, rfl⟩
termination_by 3 - rc
decreasing_by omega

theorem sendLoop_ne_returnedFalse (f g : Nat → Bool) (hf : ∀ i, i ≤ 2 → f i = false)
    (rc : Nat) : (sendLoop f g rc).result ≠ .returnedFalse := by
  by_cases h : rc ≤ 2
  · rw [sendLoop, dif_pos h, hf rc h]
    rw [if_neg (by simp)]
    by_cases hg : g rc = true
    · rw [hg, if_pos rfl]
      exact sendLoop_ne_returnedFalse f g hf (rc + 1)
    · have hg' : g rc = false := by
        revert hg
        cases g rc <;> simp
      rw [hg', if_neg (by simp)]
      intro hh
      nomatch hh
  · rw [sendLoop, dif_neg h]
    intro hh
    nomatch hh
termination_by 3 - rc
decreasing_by omega

/-- C10 (confirmed): when every transmit attempt of the retry loop fails,
`send_message_sync` reaches `self._notify_error('send', str(e))` with `e`
unbound (Python deletes the `except` binding at block exit), so it raises
`NameError` instead of reporting and returning `False`; the error callback
is never invoked, a transmit failure can never produce the `False` return
the worker's re-enqueue branch requires (only a reconnect failure can), and
the worker's `except` arm swallows the exception, dropping the task. -/
theorem echat_claim_C10 :
    (∀ f g : Nat → Bool, (∀ i, i ≤ 2 → f i = false) → (∀ i, i ≤ 2 → g i = true) →
      (sendMessageSync f g).result = .nameError ∧
      (sendMessageSync f g).errorNotified = false) ∧
    (∀ f g : Nat → Bool, (∀ i, i ≤ 2 → f i = false) →
      (sendMessageSync f g).result ≠ .returnedFalse) ∧
    (∀ r : SendResult, ∀ rc n : Nat, sendWorkerStep r rc = .requeued n →
      r = .returnedFalse) ∧
    (∀ rc : Nat, sendWorkerStep .nameError rc = .droppedException) := by
  refine ⟨fun f g hf hg => sendLoop_allfail f g hf hg 0,
    fun f g hf => sendLoop_ne_returnedFalse f g hf 0, ?_, fun rc => rfl⟩
  intro r rc n h
  cases r
  · nomatch h
  · rfl
  · nomatch h

/-- C3 (corrected): the inner retry loop of `send_message_sync` makes THREE
attempts with TWO 2-second pauses (`max_retries = 2`, loop while
`retry_count <= 2`), not one attempt plus one retry; on total transmit
failure it raises `NameError` before `_notify_error`, so no terminal error
is reported and the task is dropped by the worker without re-enqueue — the
queue-level `_retry_count` re-enqueue (up to 3, then silent drop without
any error report) is reachable only through the reconnect-failure `False`
return. -/
theorem echat_claim_C3 :
    sendMessageSync (fun _ => false) (fun _ => true) =
      ⟨.nameError, 3, 2, false⟩ ∧
    (∀ rc : Nat, rc < 3 → sendWorkerStep .returnedFalse rc = .requeued (rc + 1)) ∧
    sendWorkerStep .returnedFalse 3 = .droppedSilently ∧
    (∀ rc : Nat, sendWorkerStep .nameError rc = .droppedException) := by
  refine ⟨?_, ?_, by simp [sendWorkerStep], fun rc => rfl⟩
  · simp [sendMessageSync, sendLoop]
  · intro rc h
    simp [sendWorkerStep, h]

/-- C3 counterexample: with every transmit attempt failing and the
connection never failing to reconnect, the sync send makes 3 attempts (the
claim says one attempt plus exactly one retry), sleeps 2 seconds twice, and
terminates by raising `NameError` with the error callback never invoked
(the claim says a terminal error is reported via the error callback). -/
theorem echat_claim_C3_counterexample :
    (sendMessageSync (fun _ => false) (fun _ => true)).attempts = 3 ∧
    (sendMessageSync (fun _ => false) (fun _ => true)).sleeps2 = 2 ∧
    (sendMessageSync (fun _ => false) (fun _ => true)).errorNotified = false ∧
    (sendMessageSync (fun _ => false) (fun _ => true)).result = SendResult.nameError := by
  simp [sendMessageSync, sendLoop]

theorem processFetchList_sublist (uids : List Nat) (box : List MailMsg) :
    ((processFetchList box uids).2.map Prod.fst).Sublist uids := by
  induction uids generalizing box with
  | nil => simp [processFetchList]
  | cons u us ih =>
    simp only [processFetchList]
    cases hfe : (fetchEmail box u).2 with
    | none =>
      simp only [hfe, List.nil_append]
      exact (ih _).cons u
    | some v =>
      simp only [hfe, List.cons_append, List.nil_append, List.map_append, List.map_cons,
        List.map_nil]
      exact (ih _).cons₂ u

/-- C4 (corrected, amended part): within a single `check_new_messages` pass
over a mailbox with distinct uids, each message id reaches the callback at
most once (the UNSEEN search lists each uid once and each uid is fetched
once).  No session-scoped seen-id set exists anywhere in `_fetch_email` or
`check_new_messages`, so two concurrent observers are NOT deduplicated —
see the counterexample. -/
theorem echat_claim_C4 (box : List MailMsg) (h : (box.map MailMsg.uid).Nodup) :
    (((checkNewMessages box).2).map Prod.fst).Nodup := by
  have hs : (searchUnseen box).Nodup := by
    unfold searchUnseen
    exact h.sublist (List.Sublist.map _ (List.filter_sublist box))
  exact hs.sublist (processFetchList_sublist _ _)

/-- C4 counterexample: the IDLE worker and the backup poller both run the
UNSEEN search before either fetches; both then fetch message 1 and the
callback fires twice with the very same message — the claimed session-scoped
dedup set does not exist. -/
theorem echat_claim_C4_counterexample :
    ∃ v : JVal, concurrentCheck
      [⟨1, "x@y.co", "z@w.co", "[E-Chat] hello", "hi", false⟩] = [(1, v), (1, v)] :=
  ⟨_, rfl⟩

theorem utf16beDecode_bmp_cons (b1 b2 : Nat) (rest : List Nat)
    (h1 : b1 * 256 + b2 < 0xD800 ∨ 0xE000 ≤ b1 * 256 + b2) :
    utf16beDecode (b1 :: b2 :: rest)
      = (utf16beDecode rest).map (fun cs => Char.ofNat (b1 * 256 + b2) :: cs) := by
  rw [utf16beDecode_cons, if_neg (by omega), if_neg (by omega)]

theorem decode_folder_sent : decodeImapUtf7 "&XfJT0ZAB-" = "已发送" := by
  have h1 : b64decode (addB64Padding (pyReplaceChar ',' '/'
      ((("&XfJT0ZAB-" : String).data.drop 1).dropLast))) = some [93, 242, 83, 209, 144, 1] := by
    decide
  have h2 : utf16beDecode [93, 242, 83, 209, 144, 1] = some ['已', '发', '送'] := by
    rw [utf16beDecode_bmp_cons _ _ _ (by omega), utf16beDecode_bmp_cons _ _ _ (by omega),
      utf16beDecode_bmp_cons _ _ _ (by omega), utf16beDecode_nil]
    decide
  unfold decodeImapUtf7
  rw [if_pos (by decide), if_neg (by decide)]
  simp only [h1, h2]

theorem decode_folder_inbox : decodeImapUtf7 "&ZTZO9nux-" = "收件箱" := by
  have h1 : b64decode (addB64Padding (pyReplaceChar ',' '/'
      ((("&ZTZO9nux-" : String).data.drop 1).dropLast))) = some [101, 54, 78, 246, 123, 177] := by
    decide
  have h2 : utf16beDecode [101, 54, 78, 246, 123, 177] = some ['收', '件', '箱'] := by
    rw [utf16beDecode_bmp_cons _ _ _ (by omega), utf16beDecode_bmp_cons _ _ _ (by omega),
      utf16beDecode_bmp_cons _ _ _ (by omega), utf16beDecode_nil]
    decide
  unfold decodeImapUtf7
  rw [if_pos (by decide), if_neg (by decide)]
  simp only [h1, h2]

theorem decode_folder_history : decodeImapUtf7 "&ZTZO9lOGU,I-" = "收件历史" := by
  have h1 : b64decode (addB64Padding (pyReplaceChar ',' '/'
      ((("&ZTZO9lOGU,I-" : String).data.drop 1).dropLast)))
      = some [101, 54, 78, 246, 83, 134, 83, 242] := by
    decide
  have h2 : utf16beDecode [101, 54, 78, 246, 83, 134, 83, 242]
      = some ['收', '件', '历', '史'] := by
    rw [utf16beDecode_bmp_cons _ _ _ (by omega), utf16beDecode_bmp_cons _ _ _ (by omega),
      utf16beDecode_bmp_cons _ _ _ (by omega), utf16beDecode_bmp_cons _ _ _ (by omega),
      utf16beDecode_nil]
    decide
  unfold decodeImapUtf7
  rw [if_pos (by decide), if_neg (by decide)]
  simp only [h1, h2]

/-- C8 (corrected): `_find_inbox_folder` with no configured custom folder is
a deterministic function of the listing, resolving in order: exact
`"INBOX"`; decoded name equal (case-insensitively) to a synonym in
`['收件箱', 'inbox', '邮箱']`; `"inbox"` inside the lowercased decoded
name; then — a tier the claim omits — `"收件"` inside the decoded name;
and only then the first listed folder.  Both examples of the claim hold. -/
theorem echat_claim_C8 :
    findInboxFolder ["Sent", "Trash", "INBOX"] "" = some "INBOX" ∧
    (decodeImapUtf7 "&XfJT0ZAB-" = "已发送" ∧
     decodeImapUtf7 "&ZTZO9nux-" = "收件箱" ∧
     findInboxFolder ["&XfJT0ZAB-", "&ZTZO9nux-"] "" = some "&ZTZO9nux-") ∧
    (∀ folders : List String, findInboxFolder folders "" =
      match folders with
      | [] => none
      | _ =>
        if folders.contains "INBOX" then some "INBOX"
        else
          match folders.find?
              (fun f => inboxSynonyms.contains (pyLower (decodeImapUtf7 f))) with
          | some f => some f
          | none =>
            match folders.find?
                (fun f => containsSub "inbox".data (pyLower (decodeImapUtf7 f)).data) with
            | some f => some f
            | none =>
              match folders.find?
                  (fun f => containsSub "收件".data (decodeImapUtf7 f).data) with
              | some f => some f
              | none => folders.head?) := by
  refine ⟨?_, ⟨decode_folder_sent, decode_folder_inbox, ?_⟩, ?_⟩
  · unfold findInboxFolder
    rw [if_neg (by decide), if_pos (by decide)]
  · have p1 : decide (pyLower (decodeImapUtf7 "&XfJT0ZAB-") ∈ inboxSynonyms) = false := by
      rw [decode_folder_sent]
      decide
    have p2 : decide (pyLower (decodeImapUtf7 "&ZTZO9nux-") ∈ inboxSynonyms) = true := by
      rw [decode_folder_inbox]
      decide
    unfold findInboxFolder
    rw [if_neg (by decide), if_neg (by decide)]
    simp [List.find?, p1, p2]
  · intro folders
    cases folders with
    | nil => rfl
    | cons a as =>
      unfold findInboxFolder
      rw [if_neg (by simp [pyStrip, stripLeading, stripTrailing])]

/-- C8 counterexample: for the listing `["Trash", "&ZTZO9lOGU,I-"]` (the
second entry decodes to `收件历史`), the code's extra `收件`-substring tier
picks the second folder, while the four-tier order of the claim falls
through to the first listed folder `"Trash"`. -/
theorem echat_claim_C8_counterexample :
    findInboxFolder ["Trash", "&ZTZO9lOGU,I-"] "" = some "&ZTZO9lOGU,I-" ∧
    specResolveInbox ["Trash", "&ZTZO9lOGU,I-"] = some "Trash" ∧
    decodeImapUtf7 "&ZTZO9lOGU,I-" = "收件历史" := by
  have hdT : decodeImapUtf7 "Trash" = "Trash" := decodeImapUtf7_plain _ (by decide)
  have p1 : decide (pyLower (decodeImapUtf7 "Trash") ∈ inboxSynonyms) = false := by
    rw [hdT]
    decide
  have p2 : decide (pyLower (decodeImapUtf7 "&ZTZO9lOGU,I-") ∈ inboxSynonyms) = false := by
    rw [decode_folder_history]
    decide
  have q1 : containsSub "inbox".data (pyLower (decodeImapUtf7 "Trash")).data = false := by
    rw [hdT]
    decide
  have q2 : containsSub "inbox".data (pyLower (decodeImapUtf7 "&ZTZO9lOGU,I-")).data = false := by
    rw [decode_folder_history]
    decide
  have r1 : containsSub "收件".data (decodeImapUtf7 "Trash").data = false := by
    rw [hdT]
    decide
  have r2 : containsSub "收件".data (decodeImapUtf7 "&ZTZO9lOGU,I-").data = true := by
    rw [decode_folder_history]
    decide
  refine ⟨?_, ?_, decode_folder_history⟩
  · unfold findInboxFolder
    rw [if_neg (by decide), if_neg (by decide)]
    simp [List.find?, p1, p2, q1, q2, r1, r2]
  · unfold specResolveInbox
    rw [if_neg (by decide)]
    simp [List.find?, p1, p2, q1, q2]

/-- C5 counterexample: a 6000-character body passes `create_text_message`
with valid addresses — nothing rejects it at build time. -/
theorem echat_claim_C5_counterexample :
    (String.mk (List.replicate 6000 'x')).data.length = 6000 ∧
    ∃ m, createTextMessage "a@b.co" "c@d.co" (String.mk (List.replicate 6000 'x'))
      "echat_1_ab" "2024-01-01T00:00:00" = .ok m := by
  constructor
  · rw [show (String.mk (List.replicate 6000 'x')).data = List.replicate 6000 'x' from rfl,
      List.length_replicate]
  · exact ⟨_, rfl⟩

/-- C6 counterexample: `"image"` is outside the claim's four-kind
enumeration, yet `_create_base_message` accepts it. -/
theorem echat_claim_C6_counterexample :
    ("image" ∉ ["text", "file", "status", "system"]) ∧
    ∃ m, createBaseMessage "a@b.co" "c@d.co" "image" (.obj []) "id1" "ts1" = .ok m := by
  constructor
  · decide
  · exact ⟨_, rfl⟩

/-- C3 witness: a `False`-returning task with budget left is re-enqueued. -/
theorem echat_claim_C3_witness :
    sendWorkerStep SendResult.returnedFalse 0 = WorkerOutcome.requeued 1 :=
  echat_claim_C3.2.1 0 (by decide)

/-- C4 witness: one pass over a one-message mailbox delivers without
duplicates. -/
theorem echat_claim_C4_witness :
    (((checkNewMessages
      [⟨1, "a@b.co", "c@d.co", "[E-Chat] t", "x", false⟩]).2).map Prod.fst).Nodup :=
  echat_claim_C4 _ (by decide)

/-- C10 witness: with all transmit attempts failing, the sync send ends in
`NameError`. -/
theorem echat_claim_C10_witness :
    (sendMessageSync (fun _ => false) (fun _ => true)).result = SendResult.nameError :=
  (echat_claim_C10.1 (fun _ => false) (fun _ => true) (fun _ _ => rfl) (fun _ _ => rfl)).1

end EChatMgrProofs

end EChatProofs
